import Mathlib

/-!
Verification development for the smart-job-tracker core: a shallow embedding of
the entity-resolution and status-progression logic (app/services/processor.py,
app/models.py, app/core/constants.py) and of the extraction pipeline
(app/services/extractor.py, app/core/config.py), together with theorems about
the behaviour of those functions.

Modelling conventions:
- Python strings are Lean `String` (a wrapped `List Char`); `str.lower`/`str.upper`
  are modelled on the ASCII range, `str.strip` strips the whitespace characters
  recognised by Python.
- `datetime` values are modelled by the structure `Dt`: a totally ordered `time`
  stamp plus the calendar fields the code reads.
- The SQL store (session) is an explicit `Store` value threaded through the
  processor functions; `session.exec(select(..)).first()` is `List.find?` in
  rowid (insertion) order, `session.add` of new rows appends, updates of loaded
  rows replace by primary key.
- Optional columns and optional dict keys are `Option`; Python truthiness of a
  string is the test against `""`.
-/

/-- Lowercase one character, ASCII model of Python str.lower applied pointwise. -/
def lowerChar (c : Char) : Char :=
  if 65 ≤ c.toNat ∧ c.toNat ≤ 90 then Char.ofNat (c.toNat + 32) else c

/-- Uppercase one character, ASCII model of Python str.upper applied pointwise. -/
def upperChar (c : Char) : Char :=
  if 97 ≤ c.toNat ∧ c.toNat ≤ 122 then Char.ofNat (c.toNat - 32) else c

/-- Whitespace characters recognised by Python str.strip and regex \s. -/
def isSpaceChar (c : Char) : Bool :=
  c == ' ' || c == '\t' || c == '\n' || c == '\r' || c.toNat == 11 || c.toNat == 12

/-- Word characters of the regex class \w (ASCII reading). -/
def isWordChar (c : Char) : Bool :=
  (97 ≤ c.toNat && c.toNat ≤ 122) || (65 ≤ c.toNat && c.toNat ≤ 90) ||
  (48 ≤ c.toNat && c.toNat ≤ 57) || c == '_'

/-- Characters kept by the substitution re.sub applied with class complement of \w and \s. -/
def keepChar (c : Char) : Bool := isWordChar c || isSpaceChar c

def lowerList (l : List Char) : List Char := l.map lowerChar

/-- Python str.lower on a whole string. -/
def sLower (s : String) : String := String.mk (lowerList s.data)

/-- Python str.upper on a whole string. -/
def sUpper (s : String) : String := String.mk (s.data.map upperChar)

/-- Remove trailing whitespace, the right half of Python str.strip. -/
def trimEnd (l : List Char) : List Char := (l.reverse.dropWhile isSpaceChar).reverse

/-- Python str.strip on a character list. -/
def trimList (l : List Char) : List Char := (trimEnd l).dropWhile isSpaceChar

/-- Python str.strip on a string. -/
def stripStr (s : String) : String := String.mk (trimList s.data)

/-- Boolean list-prefix test (executable). -/
def prefB : List Char → List Char → Bool
  | [], _ => true
  | _ :: _, [] => false
  | a :: s, b :: t => a == b && prefB s t

/-- Boolean substring test: first argument occurs inside the second, the Python in operator on str. -/
def infB (needle : List Char) : List Char → Bool
  | [] => needle.isEmpty
  | c :: t => prefB needle (c :: t) || infB needle t

/-- Boolean list-suffix test, the Python str.endswith. -/
def suffB (s l : List Char) : Bool := prefB s.reverse l.reverse

/-- Python substring containment: needle in hay. -/
def strContains (hay needle : String) : Bool := infB needle.data hay.data

/-- Python str.split(sep) with a one-character separator, auxiliary accumulator form. -/
def splitOnCharAux (c : Char) : List Char → List Char → List (List Char)
  | [], acc => [acc.reverse]
  | x :: xs, acc =>
    if x == c then acc.reverse :: splitOnCharAux c xs []
    else splitOnCharAux c xs (x :: acc)

/-- Python str.split(sep) with a one-character separator. -/
def splitOnChar (c : Char) (l : List Char) : List (List Char) := splitOnCharAux c l []

/-- Python str.split() with no argument: split on whitespace runs, dropping empties. -/
def splitWsAux : List Char → List Char → List (List Char)
  | [], acc => if acc.isEmpty then [] else [acc.reverse]
  | x :: xs, acc =>
    if isSpaceChar x then
      (if acc.isEmpty then splitWsAux xs [] else acc.reverse :: splitWsAux xs [])
    else splitWsAux xs (x :: acc)

def splitWs (l : List Char) : List (List Char) := splitWsAux l []

/-- The part after the first at-sign, Python email.split on the at character, index 1; empty when no at-sign. -/
def emailDomain (e : String) : String :=
  if e.data.contains '@' then String.mk (((splitOnChar '@' e.data).drop 1).headD [])
  else ""

/-- Application lifecycle statuses, app/models.py ApplicationStatus. -/
inductive ApplicationStatus
  | APPLIED
  | INTERVIEW
  | ASSESSMENT
  | PENDING
  | COMMUNICATION
  | OFFER
  | REJECTED
  | UNKNOWN
deriving DecidableEq, Repr

/-- The string value of each enum member, app/models.py. -/
def statusValue : ApplicationStatus → String
  | .APPLIED => "APPLIED"
  | .INTERVIEW => "INTERVIEW"
  | .ASSESSMENT => "ASSESSMENT"
  | .PENDING => "PENDING"
  | .COMMUNICATION => "COMMUNICATION"
  | .OFFER => "OFFER"
  | .REJECTED => "REJECTED"
  | .UNKNOWN => "UNKNOWN"

/-- ApplicationStatus.all_values from app/models.py. -/
def allStatusValues : List String :=
  ["APPLIED", "INTERVIEW", "ASSESSMENT", "PENDING", "COMMUNICATION", "OFFER",
   "REJECTED", "UNKNOWN"]

/-- Enum lookup by value, ApplicationStatus(s). -/
def statusOfValue (s : String) : Option ApplicationStatus :=
  if s == "APPLIED" then some .APPLIED
  else if s == "INTERVIEW" then some .INTERVIEW
  else if s == "ASSESSMENT" then some .ASSESSMENT
  else if s == "PENDING" then some .PENDING
  else if s == "COMMUNICATION" then some .COMMUNICATION
  else if s == "OFFER" then some .OFFER
  else if s == "REJECTED" then some .REJECTED
  else if s == "UNKNOWN" then some .UNKNOWN
  else none

/-- STATUS_RANK from app/core/constants.py; the Python dict is total on the enum, and callers use .get with default 0. -/
def STATUS_RANK : ApplicationStatus → Nat
  | .UNKNOWN => 0
  | .APPLIED => 1
  | .PENDING => 2
  | .COMMUNICATION => 2
  | .ASSESSMENT => 3
  | .INTERVIEW => 4
  | .REJECTED => 5
  | .OFFER => 6

/-- Model of a Python datetime: a total order on time plus the calendar fields the code reads. -/
structure Dt where
  time : Nat
  year : Nat
  month : Nat
  day : Nat
deriving DecidableEq, Repr

/-- The canonical extracted record, app/services/extractor.py ApplicationData. -/
structure ApplicationData where
  company_name : String
  position : Option String
  status : ApplicationStatus
  summary : Option String
  is_rejection : Bool
  next_step : Option String
deriving DecidableEq, Repr

/-- Row of the jobapplication table, app/models.py JobApplication. -/
structure JobApplication where
  id : Nat
  company_id : Option Nat
  company_name : String
  position : Option String
  status : ApplicationStatus
  is_active : Bool
  sender_name : Option String
  sender_email : Option String
  created_at : Dt
  last_updated : Dt
  email_id : Option String
  thread_id : Option String
  email_subject : String
  email_snippet : Option String
  summary : Option String
  notes : Option String
  reached_assessment : Bool
  reached_interview : Bool
  year : Nat
  month : Nat
  day : Nat
deriving DecidableEq, Repr

/-- JobApplication.status_rank, app/models.py. -/
def statusRankOf (a : JobApplication) : Nat := STATUS_RANK a.status

/-- JobApplication.can_update_status, app/models.py: progression or an always-allowed rejection. -/
def can_update_status (a : JobApplication) (newStatus : ApplicationStatus) : Bool :=
  decide (statusRankOf a < STATUS_RANK newStatus) || newStatus == .REJECTED

/-- Row of the company table, app/models.py Company. -/
structure Company where
  id : Nat
  name : String
  domain : Option String
deriving DecidableEq, Repr

/-- Row of the companyemail table, app/models.py CompanyEmail. -/
structure CompanyEmail where
  id : Nat
  email : String
  company_id : Nat
deriving DecidableEq, Repr

/-- Row of the applicationevent table, app/models.py ApplicationEventLog. -/
structure ApplicationEventLog where
  id : Nat
  application_id : Nat
  event_date : Dt
  old_status : Option ApplicationStatus
  new_status : ApplicationStatus
  summary : String
  email_subject : String
deriving DecidableEq, Repr

/-- The database state: tables in rowid order plus autoincrement counters. -/
structure Store where
  apps : List JobApplication
  companies : List Company
  companyEmails : List CompanyEmail
  events : List ApplicationEventLog
  nextAppId : Nat
  nextCompanyId : Nat
  nextEmailId : Nat
  nextEventId : Nat
deriving DecidableEq, Repr

/-- The email_meta dict handed to the processor by app/services/sync.py; none models an absent key. -/
structure EmailMeta where
  id : Option String
  thread_id : Option String
  subject : Option String
  snippet : Option String
  sender_name : Option String
  sender_email : Option String
  year : Option Nat
  month : Option Nat
  day : Option Nat
deriving DecidableEq, Repr

/-- The slice of the config dict the processor reads: config extraction platforms. -/
structure ProcConfig where
  platforms : List String
deriving DecidableEq, Repr

/-- Literal generic-domain set of processor.py (local to _find_existing_application and _get_or_create_company). -/
def genericDomainsProc : List String :=
  ["gmail.com", "yahoo.com", "outlook.com", "hotmail.com", "icloud.com", "me.com",
   "live.com", "msn.com"]

/-- Literal shared-platform anchor set of processor.py. -/
def sharedPlatformAnchors : List String :=
  ["myworkdayjobs.com", "successfactors.eu", "successfactors.com", "greenhouse.io",
   "smartrecruiters.com"]

/-- Literal shared-email set of processor.py. -/
def sharedEmailsProc : List String :=
  ["notifications@smartrecruiters.com", "no-reply@successfactors.com",
   "noreply@myworkday.com"]

/-- Generic filler words removed in the tier-4 containment check. -/
def genericWordsT4 : List String :=
  ["group", "systems", "solutions", "technologies", "holding", "limited"]

/-- Suffix list of ApplicationProcessor._normalize_company. -/
def companySuffixes : List (List Char) :=
  (["gmbh", "ag", "inc", "ltd", "co", "kg", "plc", "se", "corp", "corporation",
    "holding", "group", "germany", "deutschland", "berlin", "europe", "emea",
    "international", "solutions", "systems", "technology", "technologies",
    "successfactors", "workday", "greenhouse"]).map String.data

/-- Does the regex search with pattern backslash-s-plus suffix dollar hit: the list ends with the suffix and a whitespace character stands right before it. -/
def suffixMatch (suf : List Char) (name : List Char) : Bool :=
  suffB suf name && suf.length < name.length &&
  (match (name.take (name.length - suf.length)).getLast? with
   | some c => isSpaceChar c
   | none => false)

/-- Result of re.sub removing the matched trailing whitespace run plus suffix. -/
def stripSuffixOnce (suf : List Char) (name : List Char) : List Char :=
  trimEnd (name.take (name.length - suf.length))

/-- First suffix of the list that matches at the end of the name, together with the stripped name. -/
def findSuffix (name : List Char) : List (List Char) → Option (List Char)
  | [] => none
  | suf :: rest =>
    if suffixMatch suf name then some (stripSuffixOnce suf name)
    else findSuffix name rest

/-- The while-changed loop of _normalize_company: strip, then remove the first matching suffix, repeat; fuel bounds the iteration count. -/
def stripLoop : Nat → List Char → List Char
  | 0, n => n
  | f + 1, n =>
    let t := trimList n
    match findSuffix t companySuffixes with
    | some n2 => stripLoop f n2
    | none => t

/-- Body of _normalize_company on a nonempty name: lowercase, drop punctuation, iteratively strip suffixes, strip. -/
def normalizeList (l : List Char) : List Char :=
  let n := (lowerList l).filter keepChar
  trimList (stripLoop (n.length + 1) n)

/-- ApplicationProcessor._normalize_company from app/services/processor.py. -/
def normalizeCompany (s : String) : String :=
  if s == "" then "" else String.mk (normalizeList s.data)

/-- Detection of a shared applicant-tracking platform domain in _find_existing_application. -/
def isSharedPlatform (platforms : List String) (senderDomain : String) : Bool :=
  (platforms.any (fun p => p == senderDomain || suffB ("." ++ p).data senderDomain.data)) &&
  sharedPlatformAnchors.contains senderDomain

/-- The is_acronym helper nested in the tier-4 name match. -/
def isAcronym (short long : List Char) : Bool :=
  if short.isEmpty || long.isEmpty || short.length < 2 then false
  else
    let words := splitWs long
    if words.isEmpty then false
    else short == words.filterMap List.head?

/-- Tier 4 of _find_existing_application: smart name match on normalized names. -/
def tier4NameMatch (normNew normApp : List Char) : Bool :=
  if normNew.isEmpty || normApp.isEmpty then false
  else if normNew == normApp then true
  else if isAcronym normNew normApp || isAcronym normApp normNew then true
  else if 4 < normNew.length && 4 < normApp.length then
    if infB normNew normApp || infB normApp normNew then
      let cleanNew := List.intercalate [' ']
        ((splitWs normNew).filter (fun w => !(genericWordsT4.contains (String.mk w))))
      let cleanApp := List.intercalate [' ']
        ((splitWs normApp).filter (fun w => !(genericWordsT4.contains (String.mk w))))
      if 3 < cleanNew.length && 3 < cleanApp.length then
        infB cleanNew cleanApp || infB cleanApp cleanNew
      else false
    else false
  else false

/-- Tier 5 of _find_existing_application: shared-platform context match on position and sender display name. -/
def tier5Match (isShared : Bool) (senderDomain : String) (dataPosition : Option String)
    (metaSenderName : Option String) (a : JobApplication) : Bool :=
  let appEmail := sLower (a.sender_email.getD "")
  let appDomain := emailDomain appEmail
  isShared && appDomain == senderDomain &&
  (match dataPosition, a.position with
   | some dp, some ap => !(dp == "") && !(ap == "") && sLower dp == sLower ap
   | _, _ => false) &&
  (let snNew := sLower (metaSenderName.getD "")
   let snApp := sLower (a.sender_name.getD "")
   !(snNew == "") && !(snApp == "") && snNew == snApp)

/-- The per-candidate matching predicate is_match of _find_existing_application, tiers 2 to 5; a failed inner guard falls through to the next tier, it never rejects outright. -/
def isMatch (senderEmail senderDomain : String) (normNew : List Char) (isShared : Bool)
    (emailToCompany : String → Option Nat) (data : ApplicationData) (meta : EmailMeta)
    (a : JobApplication) : Bool :=
  let appEmail := sLower (a.sender_email.getD "")
  let appDomain := emailDomain appEmail
  let normApp := (normalizeCompany a.company_name).data
  (!(senderEmail == "") && !(appEmail == "") && senderEmail == appEmail &&
     !(sharedEmailsProc.contains senderEmail)) ||
  ((match emailToCompany senderEmail with
    | some cid => a.company_id == some cid
    | none => false) && !(sharedEmailsProc.contains senderEmail)) ||
  (!(senderDomain == "") && !(appDomain == "") && senderDomain == appDomain &&
     !isShared && !(genericDomainsProc.contains senderDomain)) ||
  tier4NameMatch normNew normApp ||
  tier5Match isShared senderDomain data.position meta.sender_name a

/-- Stable insertion preserving descending order of last_updated, auxiliary to the second-pass sort. -/
def insertDesc (x : JobApplication) : List JobApplication → List JobApplication
  | [] => [x]
  | y :: ys =>
    if x.last_updated.time < y.last_updated.time then y :: insertDesc x ys
    else x :: y :: ys

/-- Stable sort by last_updated descending, the Python list.sort with reverse set. -/
def sortByUpdatedDesc : List JobApplication → List JobApplication
  | [] => []
  | x :: xs => insertDesc x (sortByUpdatedDesc xs)

/-- ApplicationProcessor._find_existing_application: tier-1 thread match, then the tiered predicate over active rows in rowid order, then over inactive rows by recency. Returns the store it read plus the resolver result. -/
def findExistingApplication (cfg : ProcConfig) (data : ApplicationData) (meta : EmailMeta)
    (s : Store) : Store × (Option JobApplication × Bool) :=
  let tier1 : Option JobApplication :=
    match meta.thread_id with
    | some t => if t == "" then none else s.apps.find? (fun a => a.thread_id == some t)
    | none => none
  match tier1 with
  | some app => (s, (some app, app.is_active))
  | none =>
    let normNew := (normalizeCompany data.company_name).data
    let senderEmail := sLower (meta.sender_email.getD "")
    let senderDomain := emailDomain senderEmail
    let isShared := isSharedPlatform cfg.platforms senderDomain
    let emailToCompany := fun e =>
      ((s.companyEmails.reverse.find? (fun ce => ce.email == e)).map (fun ce => ce.company_id))
    match s.apps.find? (fun a =>
        a.is_active && isMatch senderEmail senderDomain normNew isShared emailToCompany data meta a) with
    | some app => (s, (some app, true))
    | none =>
      match (sortByUpdatedDesc s.apps).find? (fun a =>
          !a.is_active && isMatch senderEmail senderDomain normNew isShared emailToCompany data meta a) with
      | some app => (s, (some app, false))
      | none => (s, (none, false))

/-- Alias recording at the end of _get_or_create_company: remember the sender email for the company unless shared or already known. -/
def recordCompanyEmail (senderEmail : String) (cid : Nat) (s : Store) : Store :=
  if !(senderEmail == "") && !(sharedEmailsProc.contains senderEmail) then
    match s.companyEmails.find? (fun ce => ce.email == senderEmail) with
    | some _ => s
    | none =>
      { s with
        companyEmails := s.companyEmails ++ [{ id := s.nextEmailId, email := senderEmail, company_id := cid }],
        nextEmailId := s.nextEmailId + 1 }
  else s

/-- ApplicationProcessor._get_or_create_company: lookup by exact name, then by non-generic non-shared domain, else create; backfill the company domain; remember the sender email. -/
def getOrCreateCompany (cfg : ProcConfig) (data : ApplicationData) (meta : EmailMeta)
    (s : Store) : Store × Company :=
  let name := data.company_name
  let senderEmail := sLower (meta.sender_email.getD "")
  let domain0 : Option String :=
    if senderEmail.data.contains '@' then
      let d := emailDomain senderEmail
      if genericDomainsProc.contains d then none else some d
    else none
  let company1 := s.companies.find? (fun c => c.name == data.company_name)
  let company2 : Option Company :=
    match company1 with
    | some c => some c
    | none =>
      match domain0 with
      | some d =>
        if !(sharedPlatformAnchors.contains d) && !(cfg.platforms.contains d) &&
           !(d == "gmail.com" || d == "yahoo.com") then
          s.companies.find? (fun c => c.domain == some d)
        else none
      | none => none
  match company2 with
  | some c =>
    let c2 : Company :=
      match domain0, c.domain with
      | some d, none => { c with domain := some d }
      | _, _ => c
    let s2 := { s with companies := s.companies.map (fun x => if x.id == c.id then c2 else x) }
    (recordCompanyEmail senderEmail c2.id s2, c2)
  | none =>
    let c : Company := { id := s.nextCompanyId, name := name, domain := domain0 }
    let s2 := { s with companies := s.companies ++ [c], nextCompanyId := s.nextCompanyId + 1 }
    (recordCompanyEmail senderEmail c.id s2, c)

/-- ApplicationProcessor._log_event: append one immutable audit row. -/
def logEvent (appId : Nat) (oldS : Option ApplicationStatus) (newS : ApplicationStatus)
    (summary : Option String) (subject : String) (ts : Dt) (s : Store) : Store :=
  let sumStr :=
    match summary with
    | some str => if str == "" then "No summary provided" else str
    | none => "No summary provided"
  { s with
    events := s.events ++
      [{ id := s.nextEventId, application_id := appId, event_date := ts, old_status := oldS,
         new_status := newS, summary := sumStr, email_subject := subject }],
    nextEventId := s.nextEventId + 1 }

/-- The new JobApplication row built by _create_application. -/
def createdAppRecord (data : ApplicationData) (meta : EmailMeta) (ts : Dt)
    (appId companyId : Nat) : JobApplication :=
  { id := appId
    company_id := some companyId
    company_name := data.company_name
    position := some (match data.position with
      | some p => if p == "" then "Unknown Position" else p
      | none => "Unknown Position")
    status := if data.status == .UNKNOWN then .APPLIED else data.status
    is_active := !data.is_rejection
    sender_name := meta.sender_name
    sender_email := meta.sender_email
    created_at := ts
    last_updated := ts
    email_id := meta.id
    thread_id := meta.thread_id
    email_subject := meta.subject.getD "No Subject"
    email_snippet := meta.snippet
    summary := data.summary
    notes := none
    reached_assessment := false
    reached_interview := false
    year := meta.year.getD ts.year
    month := meta.month.getD ts.month
    day := meta.day.getD ts.day }

/-- ApplicationProcessor._create_application: create company, insert the new row, log a creation event. -/
def createApplication (cfg : ProcConfig) (data : ApplicationData) (meta : EmailMeta)
    (ts : Dt) (s : Store) : Store :=
  let r := getOrCreateCompany cfg data meta s
  let s1 := r.1
  let newApp := createdAppRecord data meta ts s1.nextAppId r.2.id
  let s2 := { s1 with apps := s1.apps ++ [newApp], nextAppId := s1.nextAppId + 1 }
  logEvent newApp.id none newApp.status data.summary (meta.subject.getD "No Subject") ts s2

/-- The straight-line field mutations of _update_application applied to the loaded row: status, conditional freshness updates, rejection deactivation, position fill. -/
def updatedAppRecord (a1 : JobApplication) (data : ApplicationData) (meta : EmailMeta)
    (ts : Dt) (newStatus : ApplicationStatus) : JobApplication :=
  let a2 := { a1 with status := newStatus }
  let a3 :=
    if a2.last_updated.time ≤ ts.time then
      { a2 with
        last_updated := ts
        email_id := match meta.id with | some v => some v | none => a2.email_id
        email_subject := meta.subject.getD a2.email_subject
        email_snippet := match meta.snippet with | some v => some v | none => a2.email_snippet
        summary := data.summary
        sender_name := match meta.sender_name with | some v => some v | none => a2.sender_name
        sender_email := match meta.sender_email with | some v => some v | none => a2.sender_email }
    else a2
  let a4 := if data.is_rejection then { a3 with is_active := false } else a3
  match data.position with
  | some p =>
    if !(p == "") && (a4.position == some "Unknown Position" || a4.position == none || a4.position == some "") then
      { a4 with position := some p }
    else a4
  | none => a4

/-- Company backfill at the top of _update_application: create or look up the company when the loaded row has none. -/
def uaCompanyFix (cfg : ProcConfig) (a0 : JobApplication) (data : ApplicationData)
    (meta : EmailMeta) (s : Store) : Store × JobApplication :=
  match a0.company_id with
  | none =>
    let g := getOrCreateCompany cfg data meta s
    (g.1, { a0 with company_id := some g.2.id })
  | some _ => (s, a0)

/-- ApplicationProcessor._update_application: company backfill, field mutations, commit of the row by primary key, then the audit event. -/
def updateApplication (cfg : ProcConfig) (a0 : JobApplication) (data : ApplicationData)
    (meta : EmailMeta) (ts : Dt) (overrideStatus : Option ApplicationStatus) (s : Store) : Store :=
  let r := uaCompanyFix cfg a0 data meta s
  let s1 := r.1
  let a1 := r.2
  let oldStatus := a1.status
  let newStatus := overrideStatus.getD data.status
  let a5 := updatedAppRecord a1 data meta ts newStatus
  let s2 := { s1 with apps := s1.apps.map (fun x => if x.id == a5.id then a5 else x) }
  logEvent a5.id (some oldStatus) newStatus data.summary (meta.subject.getD a5.email_subject) ts s2

/-- The strong forward signals that force a fresh process from an inactive match. -/
def strongForwardStatus (st : ApplicationStatus) : Bool :=
  st == .APPLIED || st == .INTERVIEW || st == .ASSESSMENT || st == .OFFER

/-- The raw statuses normalized to COMMUNICATION for an existing active process. -/
def peWeak (st : ApplicationStatus) : Bool := st == .APPLIED || st == .UNKNOWN

/-- The effective proposed status after the active-process downgrade. -/
def peRaw (st : ApplicationStatus) : ApplicationStatus :=
  if peWeak st then .COMMUNICATION else st

/-- The summary replacement applied together with the downgrade in process_extraction. -/
def peData1 (data : ApplicationData) : ApplicationData :=
  if peWeak data.status && (match data.summary with
      | none => true
      | some str => str == "" || str == "No summary extracted") then
    { data with summary := some "Application update/communication" }
  else data

/-- The rank gate of process_extraction: keep the current status unless the proposed rank is strictly higher. -/
def peFinal (cur raw : ApplicationStatus) : ApplicationStatus :=
  if STATUS_RANK cur < STATUS_RANK raw then raw else cur

/-- Identity upgrade inside process_extraction: when the matched row is named Unknown and the record carries a name, adopt the name and its company. -/
def upgradeNameFix (cfg : ProcConfig) (a : JobApplication) (data : ApplicationData)
    (meta : EmailMeta) (s0 : Store) : Store × JobApplication :=
  if a.company_name == "Unknown" && !(data.company_name == "Unknown") then
    let g := getOrCreateCompany cfg data meta s0
    (g.1, { a with company_id := some g.2.id, company_name := data.company_name })
  else (s0, a)

/-- ApplicationProcessor.process_extraction: resolve, then create or update following the active flag, the weak-status downgrade and the rank gate. -/
def processExtraction (cfg : ProcConfig) (data : ApplicationData) (meta : EmailMeta)
    (ts : Dt) (s : Store) : Store :=
  let fr := findExistingApplication cfg data meta s
  let s0 := fr.1
  match fr.2 with
  | (none, _) => createApplication cfg data meta ts s0
  | (some a, true) =>
    let r := upgradeNameFix cfg a data meta s0
    updateApplication cfg r.2 (peData1 data) meta ts
      (some (peFinal r.2.status (peRaw data.status))) r.1
  | (some a, false) =>
    if strongForwardStatus data.status then createApplication cfg data meta ts s0
    else updateApplication cfg a data meta ts (some a.status) s0

/-- Keyword configuration, app/core/config.py StatusKeywordsConfig. -/
structure KwCfg where
  rejected : List String
  assessment : List String
  interview : List String
  offer : List String
  applied : List String
deriving DecidableEq, Repr

/-- Default keyword lists of StatusKeywordsConfig in app/core/config.py. -/
def defaultStatusKeywords : KwCfg :=
  { rejected := ["regret", "unfortunately", "not moving forward", "other candidates", "declined"]
    assessment := ["assessment", "coding challenge", "take-home", "hackerrank", "codility"]
    interview := ["interview", "meet with", "schedule a time", "availability"]
    offer := ["offer", "pleased to offer", "congratulations"]
    applied := ["received", "thank you for applying", "application confirmation"] }

/-- One keyword list hit: any lowercased keyword occurs in the search text. -/
def kwAny (kws : List String) (search : String) : Bool :=
  kws.any (fun w => strContains search (sLower w))

/-- The weak statuses consulted by the applied-keyword override in _refine_status. -/
def weakStatusesRefine : List ApplicationStatus := [.PENDING, .COMMUNICATION, .UNKNOWN]

/-- EmailExtractor._refine_status from app/services/extractor.py: keyword overrides in source order over the lowercased subject plus text. -/
def refineStatus (kw : KwCfg) (d : ApplicationData) (subject text : String) : ApplicationData :=
  let search := sLower (subject ++ " " ++ text)
  if kwAny kw.rejected search then { d with status := .REJECTED, is_rejection := true }
  else if kwAny kw.assessment search then { d with status := .ASSESSMENT }
  else if kwAny kw.applied search then
    (if weakStatusesRefine.contains d.status then { d with status := .APPLIED } else d)
  else if !([ApplicationStatus.APPLIED, .PENDING, .COMMUNICATION, .UNKNOWN].contains d.status) then d
  else if kwAny kw.offer search then { d with status := .OFFER }
  else if kwAny kw.interview search then { d with status := .INTERVIEW }
  else d

/-- The record built at the end of EmailExtractor._extract_heuristic. The company extraction of lines 426 to 481 feeds only the company_name field and is taken as a parameter here; the status is the unconditional APPLIED of line 483, the field the claims are about. -/
def extractHeuristicRecord (company : String) : ApplicationData :=
  { company_name := company
    position := none
    status := .APPLIED
    summary := some "Extracted via heuristics (APPLIED)"
    is_rejection := false
    next_step := none }

/-- Status computed by the heuristic fallback path of EmailExtractor.extract: the heuristic record refined by _refine_status. -/
def heuristicPathStatus (kw : KwCfg) (subject bodyText company : String) : ApplicationStatus :=
  (refineStatus kw (extractHeuristicRecord company) subject bodyText).status

/-- Modelled from the spec: the claimed status scan with precedence rejected over offer over interview over assessment over applied, first match wins, defaulting to a pending or communication status. Used only to compare the claimed order with the code. -/
def specHeuristicStatus (kw : KwCfg) (subject text : String) : ApplicationStatus :=
  let search := sLower (subject ++ " " ++ text)
  if kwAny kw.rejected search then .REJECTED
  else if kwAny kw.offer search then .OFFER
  else if kwAny kw.interview search then .INTERVIEW
  else if kwAny kw.assessment search then .ASSESSMENT
  else if kwAny kw.applied search then .APPLIED
  else .PENDING

/-- Outcome of one provider call inside EmailExtractor.extract. -/
inductive ProviderOutcome
  | success (d : ApplicationData)
  | failure (msg : String)
deriving DecidableEq, Repr

/-- A provider with its class name and the outcome its call would produce. -/
structure ProviderStep where
  name : String
  outcome : ProviderOutcome
deriving DecidableEq, Repr

/-- Error classification of EmailExtractor.extract: quota or rate-limit markers in the lowercased message. -/
def classifyQuotaError (msg : String) : Bool :=
  let m := sLower msg
  strContains m "quota" || strContains m "429" || strContains m "403" || strContains m "limit"

/-- The provider loop of EmailExtractor.extract (lines 341 to 362): skip session-failed providers, return on the first success, mark quota failures as failed for the session, otherwise continue. Returns the failed set after the call, the successful payload if any, and the names of providers invoked in order. -/
def providerLoop (failed : List String) : List ProviderStep → List String × Option ApplicationData × List String
  | [] => (failed, none, [])
  | p :: rest =>
    if failed.contains p.name then providerLoop failed rest
    else
      match p.outcome with
      | .success d => (failed, some d, [p.name])
      | .failure msg =>
        let failed2 := if classifyQuotaError msg then failed ++ [p.name] else failed
        let r := providerLoop failed2 rest
        (r.1, r.2.1, p.name :: r.2.2)

/-- The failed_providers set after one extract call. -/
def extractCallState (failed : List String) (steps : List ProviderStep) : List String :=
  (providerLoop failed steps).1

/-- The extractor session state after n extract calls, starting from the empty failed set of EmailExtractor construction. -/
def iterateFailedState (steps : List ProviderStep) : Nat → List String
  | 0 => []
  | Nat.succ n => extractCallState (iterateFailedState steps n) steps

/-- The three cloud providers of tests/test_extractor.py, all raising a plain non-quota exception. -/
def allFailSteps : List ProviderStep :=
  [{ name := "ClaudeProvider", outcome := .failure "Fail" },
   { name := "OpenAIProvider", outcome := .failure "Fail" },
   { name := "GeminiProvider", outcome := .failure "Fail" }]

/-- Loosely-typed values a provider may put in its field map. -/
inductive PyVal
  | pstr (s : String)
  | pbool (b : Bool)
  | pint (n : Int)
  | pnull
  | pstatus (st : ApplicationStatus)
deriving DecidableEq, Repr

/-- A provider field map, a Python dict with string keys in insertion order. -/
abbrev FieldMap := List (String × PyVal)

/-- Dict key lookup. -/
def fmLookup (m : FieldMap) (k : String) : Option PyVal :=
  (m.find? (fun kv => kv.1 == k)).map (fun kv => kv.2)

/-- Dict key removal, the Python pop. -/
def fmPop : FieldMap → String → FieldMap
  | [], _ => []
  | kv :: t, k => if kv.1 == k then fmPop t k else kv :: fmPop t k

/-- Dict key assignment. -/
def fmSet : FieldMap → String → PyVal → FieldMap
  | [], k, v => [(k, v)]
  | kv :: t, k, v => if kv.1 == k then (k, v) :: t else kv :: fmSet t k v

/-- Python truthiness of a field value. -/
def pyTruthy : PyVal → Bool
  | .pstr s => !(s == "")
  | .pbool b => b
  | .pint n => !(n == 0)
  | .pnull => false
  | .pstatus _ => true

/-- Python str() of a field value; the status branch never reaches the pnull case. -/
def pyStr : PyVal → String
  | .pstr s => s
  | .pbool b => if b then "True" else "False"
  | .pint n => toString n
  | .pnull => "None"
  | .pstatus st => statusValue st

/-- Stage of sanitize_input repairing the employer field name. -/
def sanStage1 (m0 : FieldMap) : FieldMap :=
  if (fmLookup m0 "employer").isSome && (fmLookup m0 "company_name").isNone then
    fmSet (fmPop m0 "employer") "company_name" ((fmLookup m0 "employer").getD .pnull)
  else m0

/-- Stage of sanitize_input repairing the description field name. -/
def sanStage2 (m1 : FieldMap) : FieldMap :=
  if (fmLookup m1 "description").isSome && (fmLookup m1 "summary").isNone then
    fmSet (fmPop m1 "description") "summary" ((fmLookup m1 "description").getD .pnull)
  else m1

/-- Stage of sanitize_input coercing the status value into the enum, defaulting to UNKNOWN. -/
def sanStage3 (m2 : FieldMap) : FieldMap :=
  match fmLookup m2 "status" with
  | some (.pstatus _) => m2
  | some v =>
    if pyTruthy v then
      let su := stripStr (sUpper (pyStr v))
      if allStatusValues.contains su then
        fmSet m2 "status" (.pstatus ((statusOfValue su).getD .UNKNOWN))
      else fmSet m2 "status" (.pstatus .UNKNOWN)
    else fmSet m2 "status" (.pstatus .UNKNOWN)
  | none => fmSet m2 "status" (.pstatus .UNKNOWN)

/-- Stage of sanitize_input defaulting an absent or empty summary. -/
def sanStage4 (m3 : FieldMap) : FieldMap :=
  match fmLookup m3 "summary" with
  | some v =>
    if !(pyTruthy v) || v == .pstr "No summary extracted" then
      fmSet m3 "summary" (.pstr "No summary provided")
    else m3
  | none => fmSet m3 "summary" (.pstr "No summary provided")

/-- Stage of sanitize_input defaulting a missing rejection flag. -/
def sanStage5 (m4 : FieldMap) : FieldMap :=
  match fmLookup m4 "is_rejection" with
  | some .pnull => fmSet m4 "is_rejection" (.pbool false)
  | none => fmSet m4 "is_rejection" (.pbool false)
  | some _ => m4

/-- Stage of sanitize_input ensuring the position key exists. -/
def sanStage6 (m5 : FieldMap) : FieldMap :=
  if (fmLookup m5 "position").isNone then fmSet m5 "position" .pnull else m5

/-- Stage of sanitize_input ensuring the next_step key exists. -/
def sanStage7 (m6 : FieldMap) : FieldMap :=
  if (fmLookup m6 "next_step").isNone then fmSet m6 "next_step" .pnull else m6

/-- ApplicationData.sanitize_input, the before-mode validator in app/services/extractor.py: field-name repair, status coercion, summary and rejection defaults, presence of the optional keys. -/
def sanitize_input (m0 : FieldMap) : FieldMap :=
  sanStage7 (sanStage6 (sanStage5 (sanStage4 (sanStage3 (sanStage2 (sanStage1 m0))))))

/-- Validation of the required string field company_name; an enum member passes the str check because ApplicationStatus subclasses str. -/
def vCompany (m : FieldMap) : Except String String :=
  match fmLookup m "company_name" with
  | some (.pstr c) => Except.ok c
  | some (.pstatus sv) => Except.ok (statusValue sv)
  | some _ => Except.error "company_name: Input should be a valid string"
  | none => Except.error "company_name: Field required"

/-- Validation of an optional string field with its declared default. -/
def vOptStr (m : FieldMap) (k dflt : String) : Except String (Option String) :=
  match fmLookup m k with
  | none => Except.ok (some dflt)
  | some .pnull => Except.ok none
  | some (.pstr p) => Except.ok (some p)
  | some _ => Except.error (k ++ ": Input should be a valid string")

/-- Validation of the required status field: an enum member, or a string equal to a member value. -/
def vStatus (m : FieldMap) : Except String ApplicationStatus :=
  match fmLookup m "status" with
  | some (.pstatus st) => Except.ok st
  | some (.pstr sv) =>
    match statusOfValue sv with
    | some st => Except.ok st
    | none => Except.error "status: Input should be a valid ApplicationStatus"
  | some _ => Except.error "status: Input should be a valid ApplicationStatus"
  | none => Except.error "status: Field required"

/-- Validation of the required bool field is_rejection. -/
def vRejection (m : FieldMap) : Except String Bool :=
  match fmLookup m "is_rejection" with
  | some (.pbool b) => Except.ok b
  | some _ => Except.error "is_rejection: Input should be a valid boolean"
  | none => Except.error "is_rejection: Field required"

/-- Pydantic field validation of ApplicationData after the before-validator. -/
def pydanticBuild (m : FieldMap) : Except String ApplicationData :=
  (vCompany m).bind (fun c =>
  (vOptStr m "position" "Unknown Position").bind (fun pos =>
  (vStatus m).bind (fun st =>
  (vOptStr m "summary" "No summary provided").bind (fun summ =>
  (vRejection m).bind (fun rej =>
  (vOptStr m "next_step" "Wait for feedback").bind (fun next =>
  Except.ok { company_name := c, position := pos, status := st, summary := summ,
              is_rejection := rej, next_step := next }))))))

/-- Construction of ApplicationData from a provider field map: the before-validator followed by field validation. -/
def sanitizeValidate (m : FieldMap) : Except String ApplicationData :=
  pydanticBuild (sanitize_input m)

/-- Effective lookup under an alternate provider field name. -/
def effLookup (m : FieldMap) (k alt : String) : Option PyVal :=
  match fmLookup m k with
  | some v => some v
  | none => fmLookup m alt

/-- A supplied optional string field: absent, null, or a string. -/
def okStrOpt : Option PyVal → Bool
  | none => true
  | some .pnull => true
  | some (.pstr _) => true
  | some _ => false

/-- A supplied optional bool field: absent, null, or a bool. -/
def okBoolOpt : Option PyVal → Bool
  | none => true
  | some .pnull => true
  | some (.pbool _) => true
  | some _ => false

/-- Well-typedness of a provider field map: an employer string under either accepted name, and string or bool typed values for the other supplied fields; the status value is unconstrained. -/
def wellTypedProviderMap (m : FieldMap) : Bool :=
  (match effLookup m "company_name" "employer" with
   | some (.pstr _) => true
   | _ => false) &&
  okStrOpt (effLookup m "summary" "description") &&
  okStrOpt (fmLookup m "position") &&
  okStrOpt (fmLookup m "next_step") &&
  okBoolOpt (fmLookup m "is_rejection")

/-! Concrete fixtures used by the witnesses and counterexamples below. -/

/-- Platform list equal to the ExtractionConfig default of app/core/config.py. -/
def cfgFix : ProcConfig :=
  { platforms := ["Workday", "Greenhouse", "SmartRecruiters", "Lever", "Ashby", "Jobvite",
      "SuccessFactors"] }

def tsA : Dt := { time := 100, year := 2026, month := 1, day := 1 }

def tsB : Dt := { time := 200, year := 2026, month := 1, day := 2 }

/-- An active Acme process at status OFFER bound to thread t1. -/
def appOfferFix : JobApplication :=
  { id := 1, company_id := some 1, company_name := "Acme", position := some "Engineer",
    status := .OFFER, is_active := true, sender_name := some "HR",
    sender_email := some "hr@acme.com", created_at := tsA, last_updated := tsA,
    email_id := some "m1", thread_id := some "t1", email_subject := "Offer",
    email_snippet := none, summary := some "Offer made", notes := none,
    reached_assessment := false, reached_interview := false, year := 2026, month := 1, day := 1 }

/-- The same process at INTERVIEW. -/
def appIntFix : JobApplication := { appOfferFix with status := .INTERVIEW }

/-- The same process rejected and inactive. -/
def appRejFix : JobApplication := { appOfferFix with status := .REJECTED, is_active := false }

/-- A second process sharing thread t1, as created by the fresh-attempt branch. -/
def appP2Fix : JobApplication := { appOfferFix with id := 2, status := .APPLIED }

def metaFix : EmailMeta :=
  { id := some "m2", thread_id := some "t1", subject := some "Re: Offer", snippet := none,
    sender_name := some "HR", sender_email := some "hr@acme.com", year := some 2026,
    month := some 1, day := some 2 }

def dataRejFix : ApplicationData :=
  { company_name := "Acme", position := some "Engineer", status := .REJECTED,
    summary := some "Rejected", is_rejection := true, next_step := none }

def dataAppliedFix : ApplicationData :=
  { dataRejFix with status := .APPLIED, is_rejection := false, summary := some "Applied again" }

def dataAssFix : ApplicationData :=
  { dataRejFix with status := .ASSESSMENT, is_rejection := false, summary := some "Test sent" }

def dataCommFix : ApplicationData :=
  { dataRejFix with status := .COMMUNICATION, is_rejection := false, summary := some "Note" }

def storeOffer : Store :=
  { apps := [appOfferFix], companies := [{ id := 1, name := "Acme", domain := some "acme.com" }],
    companyEmails := [], events := [], nextAppId := 2, nextCompanyId := 2, nextEmailId := 1,
    nextEventId := 1 }

def storeInt : Store := { storeOffer with apps := [appIntFix] }

def storeRej : Store := { storeOffer with apps := [appRejFix] }

def storeDup : Store := { storeOffer with apps := [appRejFix, appP2Fix], nextAppId := 3 }

/-! Theorems. First a toolbox of list lemmas for the normalization development. -/

theorem toNat_ofNat_valid (n : Nat) (h : n < 55296) : (Char.ofNat n).toNat = n := by
  simp only [Char.ofNat, Nat.isValidChar, Char.toNat]
  rw [dif_pos (Or.inl h)]
  simp [Char.ofNatAux, UInt32.toNat, Nat.mod_eq_of_lt (by omega : n < 4294967296)]

theorem lowerChar_idem (c : Char) : lowerChar (lowerChar c) = lowerChar c := by
  unfold lowerChar
  split
  · next h =>
    have hv : (Char.ofNat (c.toNat + 32)).toNat = c.toNat + 32 :=
      toNat_ofNat_valid _ (by omega)
    rw [if_neg]
    omega
  · rfl

theorem trimEnd_sublist (l : List Char) : List.Sublist (trimEnd l) l := by
  have h := (List.dropWhile_sublist (l := l.reverse) isSpaceChar).reverse
  simpa [trimEnd] using h

theorem trimList_sublist (l : List Char) : List.Sublist (trimList l) l :=
  List.Sublist.trans (List.dropWhile_sublist isSpaceChar) (trimEnd_sublist l)

theorem stripSuffixOnce_sublist (suf l : List Char) :
    List.Sublist (stripSuffixOnce suf l) l :=
  List.Sublist.trans (trimEnd_sublist _) (List.take_sublist _ _)

theorem findSuffix_sublist (name : List Char) (sufs : List (List Char)) (n2 : List Char)
    (h : findSuffix name sufs = some n2) : List.Sublist n2 name := by
  induction sufs with
  | nil => simp [findSuffix] at h
  | cons suf rest ih =>
    unfold findSuffix at h
    split at h
    · cases h
      exact stripSuffixOnce_sublist _ _
    · exact ih h

theorem suffixMatch_last (suf name : List Char) (h : suffixMatch suf name = true) :
    ∃ c, (name.take (name.length - suf.length)).getLast? = some c ∧ isSpaceChar c = true := by
  unfold suffixMatch at h
  simp only [Bool.and_eq_true] at h
  rcases h with ⟨_, h2⟩
  split at h2
  · next c hc => exact ⟨c, hc, h2⟩
  · cases h2

theorem trimEnd_length_lt (l : List Char) (c : Char) (hl : l.getLast? = some c)
    (hc : isSpaceChar c = true) : (trimEnd l).length < l.length := by
  have hrev : l.reverse.head? = some c := by rw [List.head?_reverse]; exact hl
  cases hr : l.reverse with
  | nil => rw [hr] at hrev; cases hrev
  | cons x xs =>
    rw [hr] at hrev
    have hx : x = c := by cases hrev; rfl
    have hlen : l.length = xs.length + 1 := by
      have := congrArg List.length hr
      simpa using this
    unfold trimEnd
    rw [hr, List.dropWhile_cons, hx, hc]
    simp only [if_true, List.length_reverse]
    have := (List.dropWhile_sublist (l := xs) isSpaceChar).length_le
    omega

theorem findSuffix_length_lt (name : List Char) (sufs : List (List Char)) (n2 : List Char)
    (h : findSuffix name sufs = some n2) : n2.length < name.length := by
  induction sufs with
  | nil => simp [findSuffix] at h
  | cons suf rest ih =>
    unfold findSuffix at h
    split at h
    · next hm =>
      cases h
      rcases suffixMatch_last suf name hm with ⟨c, hc1, hc2⟩
      have h1 : (trimEnd (name.take (name.length - suf.length))).length <
          (name.take (name.length - suf.length)).length :=
        trimEnd_length_lt _ c hc1 hc2
      have h2 : (name.take (name.length - suf.length)).length ≤ name.length :=
        (List.take_sublist _ _).length_le
      unfold stripSuffixOnce
      omega
    · exact ih h

theorem head?_dropWhile (p : Char → Bool) (l : List Char) (c : Char)
    (h : (l.dropWhile p).head? = some c) : p c = false := by
  induction l with
  | nil => simp [List.dropWhile] at h
  | cons a t ih =>
    rw [List.dropWhile_cons] at h
    by_cases hp : p a
    · rw [if_pos hp] at h
      exact ih h
    · rw [if_neg hp] at h
      have : a = c := by cases h; rfl
      subst this
      exact Bool.eq_false_iff.mpr hp

theorem dropWhile_eq_self_of_head (p : Char → Bool) (l : List Char)
    (h : ∀ c, l.head? = some c → p c = false) : l.dropWhile p = l := by
  cases l with
  | nil => rfl
  | cons a t =>
    have := h a rfl
    rw [List.dropWhile_cons, this]
    simp

theorem dropWhile_idem (p : Char → Bool) (l : List Char) :
    (l.dropWhile p).dropWhile p = l.dropWhile p :=
  dropWhile_eq_self_of_head p _ (head?_dropWhile p l)

theorem getLast?_dropWhile (p : Char → Bool) (l : List Char) :
    l.dropWhile p = [] ∨ (l.dropWhile p).getLast? = l.getLast? := by
  induction l with
  | nil => exact Or.inl rfl
  | cons a t ih =>
    rw [List.dropWhile_cons]
    by_cases hp : p a
    · rw [if_pos hp]
      cases t with
      | nil => exact Or.inl rfl
      | cons b t2 =>
        rcases ih with h | h
        · exact Or.inl h
        · right
          rw [h, List.getLast?_cons_cons]
    · rw [if_neg hp]
      exact Or.inr rfl

theorem trimEnd_eq_self (l : List Char)
    (h : ∀ c, l.getLast? = some c → isSpaceChar c = false) : trimEnd l = l := by
  unfold trimEnd
  rw [dropWhile_eq_self_of_head isSpaceChar l.reverse, List.reverse_reverse]
  intro c hc
  rw [List.head?_reverse] at hc
  exact h c hc

theorem getLast?_trimEnd (l : List Char) (c : Char)
    (h : (trimEnd l).getLast? = some c) : isSpaceChar c = false := by
  unfold trimEnd at h
  rw [List.getLast?_reverse] at h
  exact head?_dropWhile isSpaceChar l.reverse c h

theorem getLast?_trimList (l : List Char) (c : Char)
    (h : (trimList l).getLast? = some c) : isSpaceChar c = false := by
  unfold trimList at h
  rcases getLast?_dropWhile isSpaceChar (trimEnd l) with he | he
  · rw [he] at h
    cases h
  · rw [he] at h
    exact getLast?_trimEnd l c h

theorem trimList_idem (l : List Char) : trimList (trimList l) = trimList l := by
  have h1 : trimEnd (trimList l) = trimList l :=
    trimEnd_eq_self _ (fun c hc => getLast?_trimList l c hc)
  calc trimList (trimList l) = (trimEnd (trimList l)).dropWhile isSpaceChar := rfl
    _ = (trimList l).dropWhile isSpaceChar := by rw [h1]
    _ = ((trimEnd l).dropWhile isSpaceChar).dropWhile isSpaceChar := rfl
    _ = (trimEnd l).dropWhile isSpaceChar := dropWhile_idem _ _
    _ = trimList l := rfl

theorem trimList_length_le (l : List Char) : (trimList l).length ≤ l.length :=
  (trimList_sublist l).length_le

theorem stripLoop_spec : ∀ (f : Nat) (n : List Char), n.length < f →
    trimList (stripLoop f n) = stripLoop f n ∧
    findSuffix (stripLoop f n) companySuffixes = none := by
  intro f
  induction f with
  | zero => intro n h; omega
  | succ f ih =>
    intro n hn
    cases hf : findSuffix (trimList n) companySuffixes with
    | none =>
      simp only [stripLoop, hf]
      exact ⟨trimList_idem n, trivial⟩
    | some n2 =>
      simp only [stripLoop, hf]
      apply ih
      have h2 : n2.length < (trimList n).length := findSuffix_length_lt _ _ _ hf
      have h3 := trimList_length_le n
      omega

theorem mem_stripLoop : ∀ (f : Nat) (n : List Char) (a : Char), a ∈ stripLoop f n → a ∈ n := by
  intro f
  induction f with
  | zero => intro n a h; exact h
  | succ f ih =>
    intro n a h
    rw [stripLoop] at h
    revert h
    cases hf : findSuffix (trimList n) companySuffixes with
    | none =>
      intro h
      exact (trimList_sublist n).mem h
    | some n2 =>
      intro h
      have h1 : a ∈ n2 := ih n2 a h
      have h2 : a ∈ trimList n := (findSuffix_sublist _ _ _ hf).mem h1
      exact (trimList_sublist n).mem h2

theorem mapEqSelfOfFix {f : Char → Char} {l : List Char} (h : ∀ a ∈ l, f a = a) :
    l.map f = l := by
  induction l with
  | nil => rfl
  | cons a t ih =>
    simp only [List.map_cons]
    rw [h a (List.mem_cons_self a t), ih (fun b hb => h b (List.mem_cons_of_mem a hb))]

theorem normalizeList_canonical (x : List Char) :
    (∀ a ∈ normalizeList x, lowerChar a = a) ∧
    (∀ a ∈ normalizeList x, keepChar a = true) ∧
    trimList (normalizeList x) = normalizeList x ∧
    findSuffix (normalizeList x) companySuffixes = none := by
  have hspec := stripLoop_spec (((lowerList x).filter keepChar).length + 1)
      ((lowerList x).filter keepChar) (by omega)
  have hr : normalizeList x =
      stripLoop (((lowerList x).filter keepChar).length + 1) ((lowerList x).filter keepChar) := by
    unfold normalizeList
    exact hspec.1
  have hmem : ∀ a ∈ normalizeList x, a ∈ (lowerList x).filter keepChar := by
    intro a ha
    rw [hr] at ha
    exact mem_stripLoop _ _ a ha
  refine ⟨?_, ?_, ?_, ?_⟩
  · intro a ha
    have h1 := hmem a ha
    have h2 : a ∈ lowerList x := (List.filter_sublist _).mem h1
    unfold lowerList at h2
    rcases List.mem_map.mp h2 with ⟨b, _, hb⟩
    rw [← hb]
    exact lowerChar_idem b
  · intro a ha
    exact List.of_mem_filter (hmem a ha)
  · rw [hr]
    exact hspec.1.symm ▸ hspec.1
  · rw [hr]
    exact hspec.2

theorem normalizeList_fix (r : List Char) (h1 : ∀ a ∈ r, lowerChar a = a)
    (h2 : ∀ a ∈ r, keepChar a = true) (h3 : trimList r = r)
    (h4 : findSuffix r companySuffixes = none) : normalizeList r = r := by
  have hm : lowerList r = r := mapEqSelfOfFix h1
  have hf : (lowerList r).filter keepChar = r := by
    rw [hm]
    exact List.filter_eq_self.mpr h2
  unfold normalizeList
  simp only [hf]
  simp only [stripLoop, h3, h4]

/-- C9: employer-name normalization is idempotent: applying _normalize_company twice equals applying it once, for every string. -/
theorem c9_normalize_idempotent (s : String) :
    normalizeCompany (normalizeCompany s) = normalizeCompany s := by
  by_cases hs : s == ""
  · have h1 : normalizeCompany s = "" := by
      unfold normalizeCompany
      rw [if_pos hs]
    rw [h1]
    unfold normalizeCompany
    rw [if_pos (by decide)]
  · have h1 : normalizeCompany s = String.mk (normalizeList s.data) := by
      unfold normalizeCompany
      rw [if_neg hs]
    rcases normalizeList_canonical s.data with ⟨hA, hB, hC, hD⟩
    by_cases hr : normalizeList s.data = []
    · rw [h1, hr]
      have he : String.mk ([] : List Char) = "" := rfl
      rw [he]
      unfold normalizeCompany
      rw [if_pos (by decide)]
    · have hne : ¬(String.mk (normalizeList s.data) == "") = true := by
        intro hb
        apply hr
        have h2 : String.mk (normalizeList s.data) = "" := eq_of_beq hb
        exact congrArg String.data h2
      rw [h1]
      unfold normalizeCompany
      rw [if_neg hne]
      show String.mk (normalizeList (normalizeList s.data)) = String.mk (normalizeList s.data)
      rw [normalizeList_fix _ hA hB hC hD]

/-! Frame and projection lemmas about the processor operations. -/

theorem find_fst (cfg : ProcConfig) (data : ApplicationData) (meta : EmailMeta) (s : Store) :
    (findExistingApplication cfg data meta s).1 = s := by
  simp only [findExistingApplication]
  repeat' split
  all_goals rfl

theorem recordCompanyEmail_apps (e : String) (cid : Nat) (s : Store) :
    (recordCompanyEmail e cid s).apps = s.apps := by
  simp only [recordCompanyEmail]
  repeat' split
  all_goals rfl

theorem recordCompanyEmail_events (e : String) (cid : Nat) (s : Store) :
    (recordCompanyEmail e cid s).events = s.events := by
  simp only [recordCompanyEmail]
  repeat' split
  all_goals rfl

theorem recordCompanyEmail_nextAppId (e : String) (cid : Nat) (s : Store) :
    (recordCompanyEmail e cid s).nextAppId = s.nextAppId := by
  simp only [recordCompanyEmail]
  repeat' split
  all_goals rfl

theorem recordCompanyEmail_nextEventId (e : String) (cid : Nat) (s : Store) :
    (recordCompanyEmail e cid s).nextEventId = s.nextEventId := by
  simp only [recordCompanyEmail]
  repeat' split
  all_goals rfl

theorem getOrCreateCompany_apps (cfg : ProcConfig) (data : ApplicationData) (meta : EmailMeta)
    (s : Store) : (getOrCreateCompany cfg data meta s).1.apps = s.apps := by
  simp only [getOrCreateCompany]
  repeat' split
  all_goals simp only [recordCompanyEmail_apps]

theorem getOrCreateCompany_events (cfg : ProcConfig) (data : ApplicationData) (meta : EmailMeta)
    (s : Store) : (getOrCreateCompany cfg data meta s).1.events = s.events := by
  simp only [getOrCreateCompany]
  repeat' split
  all_goals simp only [recordCompanyEmail_events]

theorem getOrCreateCompany_nextAppId (cfg : ProcConfig) (data : ApplicationData) (meta : EmailMeta)
    (s : Store) : (getOrCreateCompany cfg data meta s).1.nextAppId = s.nextAppId := by
  simp only [getOrCreateCompany]
  repeat' split
  all_goals simp only [recordCompanyEmail_nextAppId]

theorem getOrCreateCompany_nextEventId (cfg : ProcConfig) (data : ApplicationData) (meta : EmailMeta)
    (s : Store) : (getOrCreateCompany cfg data meta s).1.nextEventId = s.nextEventId := by
  simp only [getOrCreateCompany]
  repeat' split
  all_goals simp only [recordCompanyEmail_nextEventId]

theorem logEvent_apps (appId : Nat) (oldS : Option ApplicationStatus) (newS : ApplicationStatus)
    (summary : Option String) (subject : String) (ts : Dt) (s : Store) :
    (logEvent appId oldS newS summary subject ts s).apps = s.apps := rfl

theorem logEvent_events_length (appId : Nat) (oldS : Option ApplicationStatus)
    (newS : ApplicationStatus) (summary : Option String) (subject : String) (ts : Dt) (s : Store) :
    (logEvent appId oldS newS summary subject ts s).events.length = s.events.length + 1 := by
  simp only [logEvent]
  simp

theorem uaCompanyFix_apps (cfg : ProcConfig) (a0 : JobApplication) (data : ApplicationData)
    (meta : EmailMeta) (s : Store) : (uaCompanyFix cfg a0 data meta s).1.apps = s.apps := by
  simp only [uaCompanyFix]
  repeat' split
  all_goals simp only [getOrCreateCompany_apps]

theorem uaCompanyFix_events (cfg : ProcConfig) (a0 : JobApplication) (data : ApplicationData)
    (meta : EmailMeta) (s : Store) : (uaCompanyFix cfg a0 data meta s).1.events = s.events := by
  simp only [uaCompanyFix]
  repeat' split
  all_goals simp only [getOrCreateCompany_events]

theorem uaCompanyFix_id (cfg : ProcConfig) (a0 : JobApplication) (data : ApplicationData)
    (meta : EmailMeta) (s : Store) : (uaCompanyFix cfg a0 data meta s).2.id = a0.id := by
  simp only [uaCompanyFix]
  repeat' split
  all_goals rfl

theorem uaCompanyFix_status (cfg : ProcConfig) (a0 : JobApplication) (data : ApplicationData)
    (meta : EmailMeta) (s : Store) : (uaCompanyFix cfg a0 data meta s).2.status = a0.status := by
  simp only [uaCompanyFix]
  repeat' split
  all_goals rfl

theorem uaCompanyFix_is_active (cfg : ProcConfig) (a0 : JobApplication) (data : ApplicationData)
    (meta : EmailMeta) (s : Store) : (uaCompanyFix cfg a0 data meta s).2.is_active = a0.is_active := by
  simp only [uaCompanyFix]
  repeat' split
  all_goals rfl

theorem uaCompanyFix_last_updated (cfg : ProcConfig) (a0 : JobApplication) (data : ApplicationData)
    (meta : EmailMeta) (s : Store) :
    (uaCompanyFix cfg a0 data meta s).2.last_updated = a0.last_updated := by
  simp only [uaCompanyFix]
  repeat' split
  all_goals rfl

theorem uaCompanyFix_reached_assessment (cfg : ProcConfig) (a0 : JobApplication)
    (data : ApplicationData) (meta : EmailMeta) (s : Store) :
    (uaCompanyFix cfg a0 data meta s).2.reached_assessment = a0.reached_assessment := by
  simp only [uaCompanyFix]
  repeat' split
  all_goals rfl

theorem uaCompanyFix_reached_interview (cfg : ProcConfig) (a0 : JobApplication)
    (data : ApplicationData) (meta : EmailMeta) (s : Store) :
    (uaCompanyFix cfg a0 data meta s).2.reached_interview = a0.reached_interview := by
  simp only [uaCompanyFix]
  repeat' split
  all_goals rfl

theorem upgradeNameFix_apps (cfg : ProcConfig) (a : JobApplication) (data : ApplicationData)
    (meta : EmailMeta) (s0 : Store) : (upgradeNameFix cfg a data meta s0).1.apps = s0.apps := by
  simp only [upgradeNameFix]
  repeat' split
  all_goals simp only [getOrCreateCompany_apps]

theorem upgradeNameFix_events (cfg : ProcConfig) (a : JobApplication) (data : ApplicationData)
    (meta : EmailMeta) (s0 : Store) : (upgradeNameFix cfg a data meta s0).1.events = s0.events := by
  simp only [upgradeNameFix]
  repeat' split
  all_goals simp only [getOrCreateCompany_events]

theorem upgradeNameFix_id (cfg : ProcConfig) (a : JobApplication) (data : ApplicationData)
    (meta : EmailMeta) (s0 : Store) : (upgradeNameFix cfg a data meta s0).2.id = a.id := by
  simp only [upgradeNameFix]
  repeat' split
  all_goals rfl

theorem upgradeNameFix_status (cfg : ProcConfig) (a : JobApplication) (data : ApplicationData)
    (meta : EmailMeta) (s0 : Store) : (upgradeNameFix cfg a data meta s0).2.status = a.status := by
  simp only [upgradeNameFix]
  repeat' split
  all_goals rfl

theorem updatedAppRecord_id (a1 : JobApplication) (data : ApplicationData) (meta : EmailMeta)
    (ts : Dt) (st : ApplicationStatus) : (updatedAppRecord a1 data meta ts st).id = a1.id := by
  simp only [updatedAppRecord]
  repeat' split
  all_goals rfl

theorem updatedAppRecord_status (a1 : JobApplication) (data : ApplicationData) (meta : EmailMeta)
    (ts : Dt) (st : ApplicationStatus) : (updatedAppRecord a1 data meta ts st).status = st := by
  simp only [updatedAppRecord]
  repeat' split
  all_goals rfl

theorem updatedAppRecord_is_active (a1 : JobApplication) (data : ApplicationData) (meta : EmailMeta)
    (ts : Dt) (st : ApplicationStatus) :
    (updatedAppRecord a1 data meta ts st).is_active =
      (if data.is_rejection then false else a1.is_active) := by
  simp only [updatedAppRecord]
  repeat' split
  all_goals simp_all

theorem updatedAppRecord_reached_assessment (a1 : JobApplication) (data : ApplicationData)
    (meta : EmailMeta) (ts : Dt) (st : ApplicationStatus) :
    (updatedAppRecord a1 data meta ts st).reached_assessment = a1.reached_assessment := by
  simp only [updatedAppRecord]
  repeat' split
  all_goals rfl

theorem updatedAppRecord_reached_interview (a1 : JobApplication) (data : ApplicationData)
    (meta : EmailMeta) (ts : Dt) (st : ApplicationStatus) :
    (updatedAppRecord a1 data meta ts st).reached_interview = a1.reached_interview := by
  simp only [updatedAppRecord]
  repeat' split
  all_goals rfl

theorem updatedAppRecord_fresh (a1 : JobApplication) (data : ApplicationData) (meta : EmailMeta)
    (ts : Dt) (st : ApplicationStatus) (h : a1.last_updated.time ≤ ts.time) :
    (updatedAppRecord a1 data meta ts st).summary = data.summary ∧
    (updatedAppRecord a1 data meta ts st).last_updated = ts := by
  simp only [updatedAppRecord]
  rw [if_pos h]
  repeat' split
  all_goals exact ⟨rfl, rfl⟩

theorem upgradeNameFix_is_active (cfg : ProcConfig) (a : JobApplication) (data : ApplicationData)
    (meta : EmailMeta) (s0 : Store) :
    (upgradeNameFix cfg a data meta s0).2.is_active = a.is_active := by
  simp only [upgradeNameFix]
  repeat' split
  all_goals rfl

theorem upgradeNameFix_last_updated (cfg : ProcConfig) (a : JobApplication) (data : ApplicationData)
    (meta : EmailMeta) (s0 : Store) :
    (upgradeNameFix cfg a data meta s0).2.last_updated = a.last_updated := by
  simp only [upgradeNameFix]
  repeat' split
  all_goals rfl

theorem peData1_is_rejection (data : ApplicationData) :
    (peData1 data).is_rejection = data.is_rejection := by
  simp only [peData1]
  repeat' split
  all_goals rfl

theorem peData1_status (data : ApplicationData) : (peData1 data).status = data.status := by
  simp only [peData1]
  repeat' split
  all_goals rfl

theorem updateApplication_spec (cfg : ProcConfig) (a0 : JobApplication) (data : ApplicationData)
    (meta : EmailMeta) (ts : Dt) (ov : Option ApplicationStatus) (s : Store) :
    ∃ a5, (updateApplication cfg a0 data meta ts ov s).apps
        = s.apps.map (fun x => if x.id == a0.id then a5 else x) ∧
      a5.id = a0.id ∧
      a5.status = ov.getD data.status ∧
      a5.is_active = (if data.is_rejection then false else a0.is_active) ∧
      a5.reached_assessment = a0.reached_assessment ∧
      a5.reached_interview = a0.reached_interview ∧
      (a0.last_updated.time ≤ ts.time → a5.summary = data.summary ∧ a5.last_updated = ts) ∧
      (updateApplication cfg a0 data meta ts ov s).events.length = s.events.length + 1 := by
  refine ⟨updatedAppRecord (uaCompanyFix cfg a0 data meta s).2 data meta ts (ov.getD data.status),
    ?_, ?_, ?_, ?_, ?_, ?_, ?_, ?_⟩
  · simp only [updateApplication, logEvent_apps, uaCompanyFix_apps, updatedAppRecord_id,
      uaCompanyFix_id]
  · simp only [updatedAppRecord_id, uaCompanyFix_id]
  · simp only [updatedAppRecord_status]
  · simp only [updatedAppRecord_is_active, uaCompanyFix_is_active]
  · simp only [updatedAppRecord_reached_assessment, uaCompanyFix_reached_assessment]
  · simp only [updatedAppRecord_reached_interview, uaCompanyFix_reached_interview]
  · intro hts
    exact updatedAppRecord_fresh _ _ _ _ _ (by rw [uaCompanyFix_last_updated]; exact hts)
  · simp only [updateApplication, logEvent_events_length, uaCompanyFix_events]

theorem createApplication_spec (cfg : ProcConfig) (data : ApplicationData) (meta : EmailMeta)
    (ts : Dt) (s : Store) :
    ∃ napp, (createApplication cfg data meta ts s).apps = s.apps ++ [napp] ∧
      napp.id = s.nextAppId ∧
      napp.status = (if data.status == ApplicationStatus.UNKNOWN then ApplicationStatus.APPLIED
        else data.status) ∧
      napp.is_active = !data.is_rejection ∧
      napp.thread_id = meta.thread_id ∧
      (createApplication cfg data meta ts s).events.length = s.events.length + 1 := by
  refine ⟨createdAppRecord data meta ts (getOrCreateCompany cfg data meta s).1.nextAppId
      (getOrCreateCompany cfg data meta s).2.id, ?_, ?_, ?_, ?_, ?_, ?_⟩
  · simp only [createApplication, logEvent_apps, getOrCreateCompany_apps]
  · simp only [createdAppRecord, getOrCreateCompany_nextAppId]
  · simp only [createdAppRecord]
  · simp only [createdAppRecord]
  · simp only [createdAppRecord]
  · simp only [createApplication, logEvent_events_length, getOrCreateCompany_events]

theorem processExtraction_active_spec (cfg : ProcConfig) (data : ApplicationData)
    (meta : EmailMeta) (ts : Dt) (s : Store) (a : JobApplication)
    (h : (findExistingApplication cfg data meta s).2 = (some a, true)) :
    ∃ a5, (processExtraction cfg data meta ts s).apps
        = s.apps.map (fun x => if x.id == a.id then a5 else x) ∧
      a5.id = a.id ∧
      a5.status = peFinal a.status (peRaw data.status) ∧
      (processExtraction cfg data meta ts s).events.length = s.events.length + 1 := by
  have h1 : findExistingApplication cfg data meta s = (s, (some a, true)) :=
    Prod.ext (find_fst cfg data meta s) h
  have h2 : processExtraction cfg data meta ts s
      = updateApplication cfg (upgradeNameFix cfg a data meta s).2 (peData1 data) meta ts
        (some (peFinal (upgradeNameFix cfg a data meta s).2.status (peRaw data.status)))
        (upgradeNameFix cfg a data meta s).1 := by
    simp only [processExtraction, h1]
  rw [h2]
  rcases updateApplication_spec cfg (upgradeNameFix cfg a data meta s).2 (peData1 data) meta ts
      (some (peFinal (upgradeNameFix cfg a data meta s).2.status (peRaw data.status)))
      (upgradeNameFix cfg a data meta s).1 with
    ⟨a5, hA, hid, hst, hact, hra, hri, hfresh, hev⟩
  refine ⟨a5, ?_, ?_, ?_, ?_⟩
  · rw [hA, upgradeNameFix_apps]
    simp only [upgradeNameFix_id]
  · rw [hid, upgradeNameFix_id]
  · rw [hst]
    simp only [Option.getD_some, upgradeNameFix_status]
  · rw [hev, upgradeNameFix_events]

theorem processExtraction_inactive_strong (cfg : ProcConfig) (data : ApplicationData)
    (meta : EmailMeta) (ts : Dt) (s : Store) (a : JobApplication)
    (h : (findExistingApplication cfg data meta s).2 = (some a, false))
    (hs : strongForwardStatus data.status = true) :
    ∃ napp, (processExtraction cfg data meta ts s).apps = s.apps ++ [napp] ∧
      napp.id = s.nextAppId ∧
      napp.status = (if data.status == ApplicationStatus.UNKNOWN then ApplicationStatus.APPLIED
        else data.status) ∧
      napp.is_active = !data.is_rejection ∧
      napp.thread_id = meta.thread_id ∧
      (processExtraction cfg data meta ts s).events.length = s.events.length + 1 := by
  have h1 : findExistingApplication cfg data meta s = (s, (some a, false)) :=
    Prod.ext (find_fst cfg data meta s) h
  have h2 : processExtraction cfg data meta ts s = createApplication cfg data meta ts s := by
    simp only [processExtraction, h1]
    rw [hs]
    rfl
  rw [h2]
  exact createApplication_spec cfg data meta ts s

theorem processExtraction_inactive_weak (cfg : ProcConfig) (data : ApplicationData)
    (meta : EmailMeta) (ts : Dt) (s : Store) (a : JobApplication)
    (h : (findExistingApplication cfg data meta s).2 = (some a, false))
    (hs : strongForwardStatus data.status = false) :
    ∃ a5, (processExtraction cfg data meta ts s).apps
        = s.apps.map (fun x => if x.id == a.id then a5 else x) ∧
      a5.id = a.id ∧
      a5.status = a.status ∧
      a5.is_active = (if data.is_rejection then false else a.is_active) ∧
      (a.last_updated.time ≤ ts.time → a5.summary = data.summary ∧ a5.last_updated = ts) ∧
      (processExtraction cfg data meta ts s).events.length = s.events.length + 1 := by
  have h1 : findExistingApplication cfg data meta s = (s, (some a, false)) :=
    Prod.ext (find_fst cfg data meta s) h
  have h2 : processExtraction cfg data meta ts s
      = updateApplication cfg a data meta ts (some a.status) s := by
    simp only [processExtraction, h1]
    rw [hs]
    rfl
  rw [h2]
  rcases updateApplication_spec cfg a data meta ts (some a.status) s with
    ⟨a5, hA, hid, hst, hact, hra, hri, hfresh, hev⟩
  refine ⟨a5, hA, hid, ?_, hact, hfresh, hev⟩
  rw [hst]
  rfl

/-- C1 counterexample: a matched active process at rank OFFER receives a proposed REJECTED status; the claim says a REJECTED transition is always applied, including from OFFER, but process_extraction leaves the status at OFFER because rank 5 is not above rank 6. -/
theorem c1_counterexample :
    (findExistingApplication cfgFix dataRejFix metaFix storeOffer).2 = (some appOfferFix, true) ∧
    dataRejFix.status = ApplicationStatus.REJECTED ∧
    appOfferFix.status = ApplicationStatus.OFFER ∧
    (processExtraction cfgFix dataRejFix metaFix tsB storeOffer).apps.map (fun x => x.status)
      = [ApplicationStatus.OFFER] := by
  decide

/-- C1 amended: for every matched active process, process_extraction applies the proposed status, after the weak-status downgrade, exactly when its rank strictly exceeds the current rank; there is no REJECTED special case, so the committed status rank never decreases at all. -/
theorem c1_amended_rank_gate (cfg : ProcConfig) (data : ApplicationData) (meta : EmailMeta)
    (ts : Dt) (s : Store) (a : JobApplication)
    (h : (findExistingApplication cfg data meta s).2 = (some a, true)) :
    ∃ a5, (processExtraction cfg data meta ts s).apps
        = s.apps.map (fun x => if x.id == a.id then a5 else x) ∧
      a5.status = (if STATUS_RANK a.status < STATUS_RANK (peRaw data.status)
        then peRaw data.status else a.status) ∧
      STATUS_RANK a.status ≤ STATUS_RANK a5.status := by
  rcases processExtraction_active_spec cfg data meta ts s a h with ⟨a5, hA, _, hst, _⟩
  refine ⟨a5, hA, ?_, ?_⟩
  · rw [hst]
    rfl
  · rw [hst]
    simp only [peFinal]
    split
    · omega
    · omega

/-- C1 amended witness: at the concrete matched active INTERVIEW process the amended gate holds. -/
theorem c1_amended_rank_gate_witness :
    (findExistingApplication cfgFix dataAppliedFix metaFix storeInt).2 = (some appIntFix, true) ∧
    (∃ a5, (processExtraction cfgFix dataAppliedFix metaFix tsB storeInt).apps
        = storeInt.apps.map (fun x => if x.id == appIntFix.id then a5 else x) ∧
      a5.status = (if STATUS_RANK appIntFix.status < STATUS_RANK (peRaw dataAppliedFix.status)
        then peRaw dataAppliedFix.status else appIntFix.status) ∧
      STATUS_RANK appIntFix.status ≤ STATUS_RANK a5.status) :=
  ⟨by decide, c1_amended_rank_gate cfgFix dataAppliedFix metaFix tsB storeInt appIntFix (by decide)⟩

/-- C2: for every resolved inactive process, a record with status APPLIED, ASSESSMENT, INTERVIEW or OFFER makes process_extraction create a brand-new process, leaving the stored rows untouched; any other status updates the inactive process in place, appending an event, refreshing summary and timestamp for a fresh message, and never setting it active again. -/
theorem c2_inactive_fresh_or_update (cfg : ProcConfig) (data : ApplicationData) (meta : EmailMeta)
    (ts : Dt) (s : Store) (a : JobApplication)
    (h : (findExistingApplication cfg data meta s).2 = (some a, false))
    (ha : a.is_active = false) :
    (strongForwardStatus data.status = true →
      ∃ napp, (processExtraction cfg data meta ts s).apps = s.apps ++ [napp] ∧
        napp.id = s.nextAppId ∧
        (processExtraction cfg data meta ts s).events.length = s.events.length + 1) ∧
    (strongForwardStatus data.status = false →
      ∃ a5, (processExtraction cfg data meta ts s).apps
          = s.apps.map (fun x => if x.id == a.id then a5 else x) ∧
        a5.id = a.id ∧
        a5.status = a.status ∧
        a5.is_active = false ∧
        (a.last_updated.time ≤ ts.time → a5.summary = data.summary ∧ a5.last_updated = ts) ∧
        (processExtraction cfg data meta ts s).events.length = s.events.length + 1) := by
  constructor
  · intro hs
    rcases processExtraction_inactive_strong cfg data meta ts s a h hs with
      ⟨napp, h1, h2, _, _, _, h6⟩
    exact ⟨napp, h1, h2, h6⟩
  · intro hs
    rcases processExtraction_inactive_weak cfg data meta ts s a h hs with
      ⟨a5, h1, h2, h3, h4, h5, h6⟩
    refine ⟨a5, h1, h2, h3, ?_, h5, h6⟩
    rw [h4, ha]
    split
    · rfl
    · rfl

/-- C2 witness: the concrete inactive rejected Acme process with a new APPLIED record yields a brand-new process, and with a COMMUNICATION record an in-place non-reactivating update. -/
theorem c2_inactive_fresh_or_update_witness :
    ((findExistingApplication cfgFix dataAppliedFix metaFix storeRej).2 = (some appRejFix, false) ∧
     appRejFix.is_active = false ∧
     strongForwardStatus dataAppliedFix.status = true ∧
     (∃ napp, (processExtraction cfgFix dataAppliedFix metaFix tsB storeRej).apps
         = storeRej.apps ++ [napp] ∧
       napp.id = storeRej.nextAppId ∧
       (processExtraction cfgFix dataAppliedFix metaFix tsB storeRej).events.length
         = storeRej.events.length + 1)) ∧
    (strongForwardStatus dataCommFix.status = false ∧
     (∃ a5, (processExtraction cfgFix dataCommFix metaFix tsB storeRej).apps
         = storeRej.apps.map (fun x => if x.id == appRejFix.id then a5 else x) ∧
       a5.id = appRejFix.id ∧
       a5.status = appRejFix.status ∧
       a5.is_active = false ∧
       (appRejFix.last_updated.time ≤ tsB.time → a5.summary = dataCommFix.summary ∧
         a5.last_updated = tsB) ∧
       (processExtraction cfgFix dataCommFix metaFix tsB storeRej).events.length
         = storeRej.events.length + 1)) :=
  ⟨⟨by decide, by decide, by decide,
     (c2_inactive_fresh_or_update cfgFix dataAppliedFix metaFix tsB storeRej appRejFix
       (by decide) (by decide)).1 (by decide)⟩,
   ⟨by decide,
     (c2_inactive_fresh_or_update cfgFix dataCommFix metaFix tsB storeRej appRejFix
       (by decide) (by decide)).2 (by decide)⟩⟩

/-- C3: for every resolved active process and a record proposing APPLIED or UNKNOWN, the proposal is downgraded to COMMUNICATION before the rank comparison, so a process at rank at least COMMUNICATION keeps its status, while an event is still appended. -/
theorem c3_active_downgrade (cfg : ProcConfig) (data : ApplicationData) (meta : EmailMeta)
    (ts : Dt) (s : Store) (a : JobApplication)
    (h : (findExistingApplication cfg data meta s).2 = (some a, true))
    (hw : data.status = ApplicationStatus.APPLIED ∨ data.status = ApplicationStatus.UNKNOWN) :
    ∃ a5, (processExtraction cfg data meta ts s).apps
        = s.apps.map (fun x => if x.id == a.id then a5 else x) ∧
      a5.status = (if STATUS_RANK a.status < STATUS_RANK ApplicationStatus.COMMUNICATION
        then ApplicationStatus.COMMUNICATION else a.status) ∧
      (STATUS_RANK ApplicationStatus.COMMUNICATION ≤ STATUS_RANK a.status →
        a5.status = a.status) ∧
      (processExtraction cfg data meta ts s).events.length = s.events.length + 1 := by
  rcases processExtraction_active_spec cfg data meta ts s a h with ⟨a5, hA, _, hst, hev⟩
  have hraw : peRaw data.status = ApplicationStatus.COMMUNICATION := by
    rcases hw with hw | hw <;> rw [peRaw, peWeak, hw] <;> rfl
  refine ⟨a5, hA, ?_, ?_, hev⟩
  · rw [hst, hraw]
    rfl
  · intro hge
    rw [hst, hraw]
    simp only [peFinal]
    rw [if_neg (by omega)]

/-- C3 witness: the concrete active INTERVIEW process with an APPLIED record keeps INTERVIEW and appends an event. -/
theorem c3_active_downgrade_witness :
    (findExistingApplication cfgFix dataAppliedFix metaFix storeInt).2 = (some appIntFix, true) ∧
    (dataAppliedFix.status = ApplicationStatus.APPLIED ∨
      dataAppliedFix.status = ApplicationStatus.UNKNOWN) ∧
    (∃ a5, (processExtraction cfgFix dataAppliedFix metaFix tsB storeInt).apps
        = storeInt.apps.map (fun x => if x.id == appIntFix.id then a5 else x) ∧
      a5.status = (if STATUS_RANK appIntFix.status < STATUS_RANK ApplicationStatus.COMMUNICATION
        then ApplicationStatus.COMMUNICATION else appIntFix.status) ∧
      (STATUS_RANK ApplicationStatus.COMMUNICATION ≤ STATUS_RANK appIntFix.status →
        a5.status = appIntFix.status) ∧
      (processExtraction cfgFix dataAppliedFix metaFix tsB storeInt).events.length
        = storeInt.events.length + 1) :=
  ⟨by decide, Or.inl (by decide),
   c3_active_downgrade cfgFix dataAppliedFix metaFix tsB storeInt appIntFix
     (by decide) (Or.inl (by decide))⟩

/-- C4 counterexample: two stored processes share thread t1, a state the fresh-attempt branch can create; the resolver returns the first of them, so it does not return the second process even though its thread id equals the message thread id. -/
theorem c4_counterexample :
    appP2Fix ∈ storeDup.apps ∧
    appP2Fix.thread_id = some "t1" ∧
    metaFix.thread_id = some "t1" ∧
    (findExistingApplication cfgFix dataAppliedFix metaFix storeDup).2.1 ≠ some appP2Fix := by
  decide

/-- C4 amended: when the message thread id is nonempty, the resolver returns the first stored process carrying that thread id, regardless of that process's active flag and of the record's employer name. -/
theorem c4_thread_tier_first_match (cfg : ProcConfig) (data : ApplicationData) (meta : EmailMeta)
    (s : Store) (t : String) (P : JobApplication)
    (h1 : meta.thread_id = some t) (h2 : (t == "") = false)
    (h3 : s.apps.find? (fun a => a.thread_id == some t) = some P) :
    findExistingApplication cfg data meta s = (s, (some P, P.is_active)) := by
  have hne : ¬((t == "") = true) := by
    rw [h2]
    exact Bool.false_ne_true
  simp only [findExistingApplication, h1, if_neg hne, h3]

/-- C4 amended witness: the duplicate-thread store resolves to its first matching process, here the inactive rejected one, with the record employer irrelevant. -/
theorem c4_thread_tier_first_match_witness :
    metaFix.thread_id = some "t1" ∧
    (("t1" == "") = false) ∧
    storeDup.apps.find? (fun a => a.thread_id == some "t1") = some appRejFix ∧
    findExistingApplication cfgFix dataAppliedFix metaFix storeDup
      = (storeDup, (some appRejFix, appRejFix.is_active)) :=
  ⟨by decide, by decide, by decide,
   c4_thread_tier_first_match cfgFix dataAppliedFix metaFix storeDup "t1" appRejFix
     (by decide) (by decide) (by decide)⟩

/-- C8 counterexample: _update_application with resolved status ASSESSMENT leaves the reached-assessment flag false on the stored row. -/
theorem c8_counterexample :
    (updateApplication cfgFix appIntFix dataAssFix metaFix tsB
        (some ApplicationStatus.ASSESSMENT) storeInt).apps.map
      (fun x => (x.status, x.reached_assessment, x.reached_interview))
      = [(ApplicationStatus.ASSESSMENT, false, false)] := by
  decide

/-- C8 amended: _update_application never modifies the milestone flags: for every resolved status the updated row keeps reached_assessment and reached_interview of the loaded row. -/
theorem c8_amended_flags_unchanged (cfg : ProcConfig) (a0 : JobApplication)
    (data : ApplicationData) (meta : EmailMeta) (ts : Dt) (ov : Option ApplicationStatus)
    (s : Store) :
    ∃ a5, (updateApplication cfg a0 data meta ts ov s).apps
        = s.apps.map (fun x => if x.id == a0.id then a5 else x) ∧
      a5.reached_assessment = a0.reached_assessment ∧
      a5.reached_interview = a0.reached_interview := by
  rcases updateApplication_spec cfg a0 data meta ts ov s with
    ⟨a5, hA, _, _, _, hra, hri, _, _⟩
  exact ⟨a5, hA, hra, hri⟩

/-- C10: entity resolution is a pure read: _find_existing_application returns the store unchanged, every table included; writes happen only in the create, update and log operations. -/
theorem c10_resolver_pure_read (cfg : ProcConfig) (data : ApplicationData) (meta : EmailMeta)
    (s : Store) : (findExistingApplication cfg data meta s).1 = s :=
  find_fst cfg data meta s

/-- C5: the extraction orchestrator keeps no global failure counter: with all three providers raising plain non-quota errors, the session failed set stays empty after any number of whole-message failures, so every later call still invokes all three providers instead of skipping them; the claimed circuit breaker, which tests/test_extractor.py::test_circuit_breaker also expects, is absent from EmailExtractor. -/
theorem c5_no_circuit_breaker (n : Nat) :
    iterateFailedState allFailSteps n = [] ∧
    (providerLoop (iterateFailedState allFailSteps n) allFailSteps).2.2
      = ["ClaudeProvider", "OpenAIProvider", "GeminiProvider"] := by
  induction n with
  | zero => exact ⟨rfl, by decide⟩
  | succ n ih =>
    have h1 : iterateFailedState allFailSteps (n + 1) = [] := by
      rw [iterateFailedState, ih.1]
      decide
    exact ⟨h1, by rw [h1]; decide⟩

/-- C6 counterexample: with the default keyword lists, a body containing both an assessment keyword and an offer keyword gets status ASSESSMENT from the heuristic path, while the claimed precedence, offer before assessment, yields OFFER. -/
theorem c6_counterexample :
    heuristicPathStatus defaultStatusKeywords ""
        "please complete the assessment for your offer" "Acme"
      = ApplicationStatus.ASSESSMENT ∧
    specHeuristicStatus defaultStatusKeywords ""
        "please complete the assessment for your offer"
      = ApplicationStatus.OFFER := by
  decide

/-- C6 amended: the heuristic path scans the lowercased concatenation of subject and body in the order rejected, assessment, applied, offer, interview, first match wins, and when the applied keywords hit or nothing matches the status stays APPLIED, independent of the extracted company. -/
theorem c6_amended_keyword_order (kw : KwCfg) (subject text company : String) :
    heuristicPathStatus kw subject text company
      = (if kwAny kw.rejected (sLower (subject ++ " " ++ text)) then ApplicationStatus.REJECTED
        else if kwAny kw.assessment (sLower (subject ++ " " ++ text)) then
          ApplicationStatus.ASSESSMENT
        else if kwAny kw.applied (sLower (subject ++ " " ++ text)) then ApplicationStatus.APPLIED
        else if kwAny kw.offer (sLower (subject ++ " " ++ text)) then ApplicationStatus.OFFER
        else if kwAny kw.interview (sLower (subject ++ " " ++ text)) then
          ApplicationStatus.INTERVIEW
        else ApplicationStatus.APPLIED) := by
  simp only [heuristicPathStatus, refineStatus, extractHeuristicRecord]
  cases hr : kwAny kw.rejected (sLower (subject ++ " " ++ text)) <;>
    cases ha : kwAny kw.assessment (sLower (subject ++ " " ++ text)) <;>
    cases hap : kwAny kw.applied (sLower (subject ++ " " ++ text)) <;>
    cases ho : kwAny kw.offer (sLower (subject ++ " " ++ text)) <;>
    cases hi : kwAny kw.interview (sLower (subject ++ " " ++ text)) <;> rfl

/-! Dictionary lemmas for the sanitizer development. -/

theorem fmLookup_fmSet_self (m : FieldMap) (k : String) (v : PyVal) :
    fmLookup (fmSet m k v) k = some v := by
  induction m with
  | nil => simp [fmSet, fmLookup, List.find?]
  | cons kv t ih =>
    simp only [fmSet]
    cases hk : (kv.1 == k) with
    | true => simp [fmLookup, List.find?]
    | false => simp [fmLookup, List.find?, hk] at ih ⊢; exact ih

theorem fmLookup_fmSet_other (m : FieldMap) (k : String) (v : PyVal) (k2 : String)
    (h : k2 ≠ k) : fmLookup (fmSet m k v) k2 = fmLookup m k2 := by
  have hb : (k == k2) = false := beq_eq_false_iff_ne.mpr (Ne.symm h)
  induction m with
  | nil => simp [fmSet, fmLookup, List.find?, hb]
  | cons kv t ih =>
    simp only [fmSet]
    cases hk : (kv.1 == k) with
    | true =>
      have hkey : kv.1 = k := eq_of_beq hk
      simp [fmLookup, List.find?, hb, hkey]
    | false => simp [fmLookup, List.find?, hk] at ih ⊢; cases hp : (kv.1 == k2) <;> simp [hp, ih]

theorem fmLookup_fmPop_other (m : FieldMap) (k k2 : String) (h : k2 ≠ k) :
    fmLookup (fmPop m k) k2 = fmLookup m k2 := by
  induction m with
  | nil => rfl
  | cons kv t ih =>
    simp only [fmPop]
    cases hk : (kv.1 == k) with
    | true =>
      have hkey : kv.1 = k := eq_of_beq hk
      have hne : (kv.1 == k2) = false := by
        rw [hkey]
        exact beq_eq_false_iff_ne.mpr (Ne.symm h)
      rw [if_pos rfl, ih]
      simp [fmLookup, List.find?, hne]
    | false => simp [fmLookup, List.find?, hk] at ih ⊢; cases hp : (kv.1 == k2) <;> simp [hp, ih]

theorem sanStage1_other (m : FieldMap) (k : String) (h1 : k ≠ "company_name")
    (h2 : k ≠ "employer") : fmLookup (sanStage1 m) k = fmLookup m k := by
  unfold sanStage1
  split
  · rw [fmLookup_fmSet_other _ _ _ _ h1, fmLookup_fmPop_other _ _ _ h2]
  · rfl

theorem sanStage2_other (m : FieldMap) (k : String) (h1 : k ≠ "summary")
    (h2 : k ≠ "description") : fmLookup (sanStage2 m) k = fmLookup m k := by
  unfold sanStage2
  split
  · rw [fmLookup_fmSet_other _ _ _ _ h1, fmLookup_fmPop_other _ _ _ h2]
  · rfl

theorem sanStage3_other (m : FieldMap) (k : String) (h1 : k ≠ "status") :
    fmLookup (sanStage3 m) k = fmLookup m k := by
  simp only [sanStage3]
  repeat' split
  all_goals first
    | rfl
    | rw [fmLookup_fmSet_other _ _ _ _ h1]

theorem sanStage4_other (m : FieldMap) (k : String) (h1 : k ≠ "summary") :
    fmLookup (sanStage4 m) k = fmLookup m k := by
  simp only [sanStage4]
  repeat' split
  all_goals first
    | rfl
    | rw [fmLookup_fmSet_other _ _ _ _ h1]

theorem sanStage5_other (m : FieldMap) (k : String) (h1 : k ≠ "is_rejection") :
    fmLookup (sanStage5 m) k = fmLookup m k := by
  simp only [sanStage5]
  repeat' split
  all_goals first
    | rfl
    | rw [fmLookup_fmSet_other _ _ _ _ h1]

theorem sanStage6_other (m : FieldMap) (k : String) (h1 : k ≠ "position") :
    fmLookup (sanStage6 m) k = fmLookup m k := by
  simp only [sanStage6]
  repeat' split
  all_goals first
    | rfl
    | rw [fmLookup_fmSet_other _ _ _ _ h1]

theorem sanStage7_other (m : FieldMap) (k : String) (h1 : k ≠ "next_step") :
    fmLookup (sanStage7 m) k = fmLookup m k := by
  simp only [sanStage7]
  repeat' split
  all_goals first
    | rfl
    | rw [fmLookup_fmSet_other _ _ _ _ h1]

theorem sanStage1_company (m : FieldMap) :
    fmLookup (sanStage1 m) "company_name" = effLookup m "company_name" "employer" := by
  unfold sanStage1 effLookup
  cases hc : fmLookup m "company_name" with
  | some v => simp [hc]
  | none =>
    cases he : fmLookup m "employer" with
    | some w => simp [hc, he, fmLookup_fmSet_self]
    | none => simp [hc, he]

theorem sanStage2_summary (m : FieldMap) :
    fmLookup (sanStage2 m) "summary" = effLookup m "summary" "description" := by
  unfold sanStage2 effLookup
  cases hc : fmLookup m "summary" with
  | some v => simp [hc]
  | none =>
    cases he : fmLookup m "description" with
    | some w => simp [hc, he, fmLookup_fmSet_self]
    | none => simp [hc, he]

theorem sanStage3_status (m : FieldMap) :
    ∃ st, fmLookup (sanStage3 m) "status" = some (.pstatus st) ∧
      (fmLookup m "status" = none → st = ApplicationStatus.UNKNOWN) := by
  unfold sanStage3
  cases hs : fmLookup m "status" with
  | none => exact ⟨.UNKNOWN, fmLookup_fmSet_self _ _ _, fun _ => rfl⟩
  | some v =>
    cases v with
    | pstatus st => exact ⟨st, hs, fun hh => Option.noConfusion hh⟩
    | pstr s =>
      dsimp only
      repeat' split
      all_goals exact ⟨_, fmLookup_fmSet_self _ _ _, fun hh => Option.noConfusion hh⟩
    | pbool b =>
      dsimp only
      repeat' split
      all_goals exact ⟨_, fmLookup_fmSet_self _ _ _, fun hh => Option.noConfusion hh⟩
    | pint n =>
      dsimp only
      repeat' split
      all_goals exact ⟨_, fmLookup_fmSet_self _ _ _, fun hh => Option.noConfusion hh⟩
    | pnull =>
      dsimp only
      repeat' split
      all_goals exact ⟨_, fmLookup_fmSet_self _ _ _, fun hh => Option.noConfusion hh⟩

theorem sanStage4_summary (m : FieldMap) (h : okStrOpt (fmLookup m "summary") = true) :
    ∃ s, fmLookup (sanStage4 m) "summary" = some (.pstr s) := by
  unfold sanStage4
  cases hs : fmLookup m "summary" with
  | none => exact ⟨_, fmLookup_fmSet_self _ _ _⟩
  | some v =>
    rw [hs] at h
    cases v with
    | pstr s =>
      dsimp only
      split
      · exact ⟨_, fmLookup_fmSet_self _ _ _⟩
      · exact ⟨s, hs⟩
    | pnull => exact ⟨_, fmLookup_fmSet_self _ _ _⟩
    | pbool b => exact Bool.noConfusion h
    | pint n => exact Bool.noConfusion h
    | pstatus st => exact Bool.noConfusion h

theorem sanStage5_rejection (m : FieldMap) (h : okBoolOpt (fmLookup m "is_rejection") = true) :
    ∃ b, fmLookup (sanStage5 m) "is_rejection" = some (.pbool b) := by
  unfold sanStage5
  cases hs : fmLookup m "is_rejection" with
  | none => exact ⟨false, fmLookup_fmSet_self _ _ _⟩
  | some v =>
    rw [hs] at h
    cases v with
    | pbool b => exact ⟨b, hs⟩
    | pnull => exact ⟨false, fmLookup_fmSet_self _ _ _⟩
    | pstr s => exact Bool.noConfusion h
    | pint n => exact Bool.noConfusion h
    | pstatus st => exact Bool.noConfusion h

theorem sanStage6_position (m : FieldMap) (h : okStrOpt (fmLookup m "position") = true) :
    fmLookup (sanStage6 m) "position" = some .pnull ∨
    ∃ p, fmLookup (sanStage6 m) "position" = some (.pstr p) := by
  unfold sanStage6
  cases hs : fmLookup m "position" with
  | none => exact Or.inl (fmLookup_fmSet_self _ _ _)
  | some v =>
    rw [hs] at h
    cases v with
    | pnull => exact Or.inl hs
    | pstr p => exact Or.inr ⟨p, hs⟩
    | pbool b => exact Bool.noConfusion h
    | pint n => exact Bool.noConfusion h
    | pstatus st => exact Bool.noConfusion h

theorem sanStage7_nextstep (m : FieldMap) (h : okStrOpt (fmLookup m "next_step") = true) :
    fmLookup (sanStage7 m) "next_step" = some .pnull ∨
    ∃ p, fmLookup (sanStage7 m) "next_step" = some (.pstr p) := by
  unfold sanStage7
  cases hs : fmLookup m "next_step" with
  | none => exact Or.inl (fmLookup_fmSet_self _ _ _)
  | some v =>
    rw [hs] at h
    cases v with
    | pnull => exact Or.inl hs
    | pstr p => exact Or.inr ⟨p, hs⟩
    | pbool b => exact Bool.noConfusion h
    | pint n => exact Bool.noConfusion h
    | pstatus st => exact Bool.noConfusion h

/-- C7 counterexample: the empty provider field map, which carries no employer name under either accepted key, makes the sanitizer pipeline raise a required-field validation error instead of returning a maximally defaulted record. -/
theorem c7_counterexample :
    sanitizeValidate [] = Except.error "company_name: Field required" := by
  rfl

/-- C7 amended: for every well-typed provider field map that supplies an employer string under company_name or employer, the sanitizer raises no error and yields a fully populated record, with a missing status coerced to UNKNOWN; without an employer name, validation errors instead. -/
theorem c7_amended_welltyped_ok (m : FieldMap) (h : wellTypedProviderMap m = true) :
    ∃ r, sanitizeValidate m = Except.ok r ∧
      (fmLookup m "status" = none → r.status = ApplicationStatus.UNKNOWN) := by
  simp only [wellTypedProviderMap, Bool.and_eq_true] at h
  obtain ⟨⟨⟨⟨hcomp, hsumm⟩, hpos⟩, hnext⟩, hrej⟩ := h
  obtain ⟨c, hc⟩ : ∃ c, effLookup m "company_name" "employer" = some (.pstr c) := by
    cases hec : effLookup m "company_name" "employer" with
    | none => rw [hec] at hcomp; exact Bool.noConfusion hcomp
    | some v =>
      cases v with
      | pstr s => exact ⟨s, rfl⟩
      | pbool b => rw [hec] at hcomp; exact Bool.noConfusion hcomp
      | pint n => rw [hec] at hcomp; exact Bool.noConfusion hcomp
      | pnull => rw [hec] at hcomp; exact Bool.noConfusion hcomp
      | pstatus st => rw [hec] at hcomp; exact Bool.noConfusion hcomp
  have hcomp7 : fmLookup (sanitize_input m) "company_name" = some (.pstr c) := by
    unfold sanitize_input
    rw [sanStage7_other _ _ (by decide), sanStage6_other _ _ (by decide),
      sanStage5_other _ _ (by decide), sanStage4_other _ _ (by decide),
      sanStage3_other _ _ (by decide), sanStage2_other _ _ (by decide) (by decide),
      sanStage1_company, hc]
  have hst2 : fmLookup (sanStage2 (sanStage1 m)) "status" = fmLookup m "status" := by
    rw [sanStage2_other _ _ (by decide) (by decide), sanStage1_other _ _ (by decide) (by decide)]
  obtain ⟨st, hst3, hstu⟩ := sanStage3_status (sanStage2 (sanStage1 m))
  have hst7 : fmLookup (sanitize_input m) "status" = some (.pstatus st) := by
    unfold sanitize_input
    rw [sanStage7_other _ _ (by decide), sanStage6_other _ _ (by decide),
      sanStage5_other _ _ (by decide), sanStage4_other _ _ (by decide), hst3]
  have hstu2 : fmLookup m "status" = none → st = ApplicationStatus.UNKNOWN := by
    intro hnone
    exact hstu (by rw [hst2, hnone])
  have hsum2 : fmLookup (sanStage2 (sanStage1 m)) "summary"
      = effLookup m "summary" "description" := by
    rw [sanStage2_summary]
    unfold effLookup
    rw [sanStage1_other _ _ (by decide) (by decide), sanStage1_other _ _ (by decide) (by decide)]
  have hsum3 : fmLookup (sanStage3 (sanStage2 (sanStage1 m))) "summary"
      = effLookup m "summary" "description" := by
    rw [sanStage3_other _ _ (by decide), hsum2]
  obtain ⟨sv, hsum4⟩ := sanStage4_summary (sanStage3 (sanStage2 (sanStage1 m)))
    (by rw [hsum3]; exact hsumm)
  have hsum7 : fmLookup (sanitize_input m) "summary" = some (.pstr sv) := by
    unfold sanitize_input
    rw [sanStage7_other _ _ (by decide), sanStage6_other _ _ (by decide),
      sanStage5_other _ _ (by decide), hsum4]
  have hrej4 : fmLookup (sanStage4 (sanStage3 (sanStage2 (sanStage1 m)))) "is_rejection"
      = fmLookup m "is_rejection" := by
    rw [sanStage4_other _ _ (by decide), sanStage3_other _ _ (by decide),
      sanStage2_other _ _ (by decide) (by decide), sanStage1_other _ _ (by decide) (by decide)]
  obtain ⟨b, hrej5⟩ := sanStage5_rejection (sanStage4 (sanStage3 (sanStage2 (sanStage1 m))))
    (by rw [hrej4]; exact hrej)
  have hrej7 : fmLookup (sanitize_input m) "is_rejection" = some (.pbool b) := by
    unfold sanitize_input
    rw [sanStage7_other _ _ (by decide), sanStage6_other _ _ (by decide), hrej5]
  have hpos5 : fmLookup (sanStage5 (sanStage4 (sanStage3 (sanStage2 (sanStage1 m))))) "position"
      = fmLookup m "position" := by
    rw [sanStage5_other _ _ (by decide), sanStage4_other _ _ (by decide),
      sanStage3_other _ _ (by decide), sanStage2_other _ _ (by decide) (by decide),
      sanStage1_other _ _ (by decide) (by decide)]
  have hpos6 := sanStage6_position (sanStage5 (sanStage4 (sanStage3 (sanStage2 (sanStage1 m)))))
    (by rw [hpos5]; exact hpos)
  have hnext6 : fmLookup (sanStage6 (sanStage5 (sanStage4 (sanStage3 (sanStage2 (sanStage1 m))))))
      "next_step" = fmLookup m "next_step" := by
    rw [sanStage6_other _ _ (by decide), sanStage5_other _ _ (by decide),
      sanStage4_other _ _ (by decide), sanStage3_other _ _ (by decide),
      sanStage2_other _ _ (by decide) (by decide), sanStage1_other _ _ (by decide) (by decide)]
  have hnext7 := sanStage7_nextstep
    (sanStage6 (sanStage5 (sanStage4 (sanStage3 (sanStage2 (sanStage1 m))))))
    (by rw [hnext6]; exact hnext)
  have hpos7 : fmLookup (sanitize_input m) "position" = some .pnull ∨
      ∃ p, fmLookup (sanitize_input m) "position" = some (.pstr p) := by
    unfold sanitize_input
    rcases hpos6 with hp | ⟨p, hp⟩
    · exact Or.inl (by rw [sanStage7_other _ _ (by decide), hp])
    · exact Or.inr ⟨p, by rw [sanStage7_other _ _ (by decide), hp]⟩
  have hnext7b : fmLookup (sanitize_input m) "next_step" = some .pnull ∨
      ∃ p, fmLookup (sanitize_input m) "next_step" = some (.pstr p) := hnext7
  rcases hpos7 with hp | ⟨p, hp⟩ <;> rcases hnext7b with hn | ⟨np, hn⟩ <;>
    (unfold sanitizeValidate pydanticBuild vCompany vStatus vRejection vOptStr;
     rw [hcomp7, hst7, hsum7, hrej7, hp, hn];
     exact ⟨_, rfl, fun hnone => hstu2 hnone⟩)

/-- C7 amended witness: a map carrying only an employer string validates to a fully defaulted record with status UNKNOWN. -/
theorem c7_amended_welltyped_ok_witness :
    wellTypedProviderMap [("employer", PyVal.pstr "Acme")] = true ∧
    (∃ r, sanitizeValidate [("employer", PyVal.pstr "Acme")] = Except.ok r ∧
      (fmLookup [("employer", PyVal.pstr "Acme")] "status" = none →
        r.status = ApplicationStatus.UNKNOWN)) :=
  ⟨by decide, c7_amended_welltyped_ok [("employer", PyVal.pstr "Acme")] (by decide)⟩
